import Mathlib

/-!
Verification of the natural-language specification of the Capstone frontend
(an energy-market trading dashboard) against a shallow Lean embedding of its
TypeScript source.

Conventions used throughout this development:
* JavaScript strings are modelled as Lean `String`; string manipulation is
  performed on the underlying character list.  Single-character
  `String.prototype.split` is modelled by `splitOnCharList` below.
* Effectful HTTP calls are modelled by passing the outcome of each request
  (`Except ApiError response`) as an explicit argument; module-level mutable
  state such as the price-data cache or the stored user becomes explicit
  state passed in and returned.
* JavaScript numbers are modelled as `Rat` (their exact values in the paths
  exercised here); `NaN`-producing corner cases that the claims exclude are
  mapped to `Option.none` and flagged by a comment at each site.
* Truthiness tests on optional values follow JavaScript: `undefined`,
  `null`, `0`, and the empty string are falsy.
-/

/-- Error token for a rejected promise; the payload is the error message. -/
abbrev ApiError := String

/-- Splitting of a character list at every occurrence of a separator
character, mirroring the semantics of JavaScript
String.prototype.split with a one-character separator: occurrences of the
separator are removed and the fragments between them (possibly empty) are
returned, so the result always has one more fragment than there are
separators. -/
def splitOnCharList (sep : Char) : List Char → List (List Char)
  | [] => [[]]
  | c :: cs =>
    let r := splitOnCharList sep cs
    if c = sep then [] :: r
    else (c :: r.headD []) :: r.tail

/-- String-level wrapper for `splitOnCharList`. -/
def jsSplit (sep : Char) (s : String) : List String :=
  (splitOnCharList sep s.data).map List.asString

/-- Whitespace test used by String.prototype.trim. -/
def jsIsSpace (c : Char) : Bool :=
  c = ' ' ∨ c = '\t' ∨ c = '\n' ∨ c = '\r'

/-- Model of String.prototype.trim: strip whitespace from both ends. -/
def jsTrim (s : String) : String :=
  List.asString (((s.data.dropWhile jsIsSpace).reverse.dropWhile jsIsSpace).reverse)

/-- Model of String.prototype.padStart with a one-character pad. -/
def jsPadStart (s : String) (n : Nat) (c : Char) : String :=
  if n ≤ s.data.length then s
  else List.asString (List.replicate (n - s.data.length) c ++ s.data)

/-- Model of String.prototype.substring for in-range "start"/"end". -/
def jsSubstring (s : String) (a b : Nat) : String :=
  List.asString ((s.data.drop a).take (b - a))

/-- Model of String.prototype.includes for a one-character needle. -/
def jsIncludes (s : String) (c : Char) : Bool :=
  s.data.contains c

/-- Deduplication keeping first occurrences, the order produced by pouring a
JavaScript array through a Set as in "[...new Set(arr)]". -/
def jsSetDedup {α : Type} [DecidableEq α] : List α → List α
  | [] => []
  | x :: xs => x :: (jsSetDedup xs).filter (fun y => y ≠ x)

/-- Numeric value of a decimal digit character. -/
def digitVal (c : Char) : Nat := c.toNat - 48

/-- Value of a non-empty all-digit character list read in base 10.  This is
the value JavaScript Number / parseInt produce on such input; inputs that
would produce NaN (or the Number("") = 0 quirk) are mapped to none and are
outside the domain modelled here. -/
def jsNumDigits (l : List Char) : Option Nat :=
  if l ≠ [] ∧ l.all Char.isDigit then
    some (l.foldl (fun a c => 10 * a + digitVal c) 0)
  else none

/-- Parse of an "HH:MM"-style string the way DateRangeFilter does it: split
on the colon and read the first two fragments as numbers.  Fragments past
the second are ignored, as they are by the destructuring in the source. -/
def parseHM (s : String) : Option (Nat × Nat) :=
  match splitOnCharList ':' s.data with
  | hs :: ms :: _ => (jsNumDigits hs).bind fun h => (jsNumDigits ms).map fun m => (h, m)
  | _ => none

/-- Model of parseInt on a base-10 string: leading whitespace is skipped, an
optional sign is read, then the longest digit run; no digits means NaN,
modelled as none. -/
def jsParseInt (s : String) : Option Int :=
  let l := s.data.dropWhile jsIsSpace
  match l with
  | '-' :: rest =>
    (jsNumDigits (rest.takeWhile Char.isDigit)).map (fun n => -(n : Int))
  | _ => (jsNumDigits (l.takeWhile Char.isDigit)).map (fun n => (n : Int))

/-- Model of parseFloat restricted to plain decimal literals (optional sign,
digit run, optional fractional digit run); exponents are not modelled.  A
string with no leading digit parses to NaN, modelled as none. -/
def jsParseFloat (s : String) : Option Rat :=
  let l := s.data.dropWhile jsIsSpace
  let core : List Char → Option Rat := fun l =>
    let intPart := l.takeWhile Char.isDigit
    match jsNumDigits intPart with
    | none => none
    | some ip =>
      match l.drop intPart.length with
      | '.' :: rest =>
        let fracPart := rest.takeWhile Char.isDigit
        match jsNumDigits fracPart with
        | some fp => some ((ip : Rat) + (fp : Rat) / ((10 : Rat) ^ fracPart.length))
        | none => some (ip : Rat)
      | _ => some (ip : Rat)
  match l with
  | '-' :: rest => (core rest).map (fun q => -q)
  | _ => core l

/-- Dynamic JSON-ish value as it arrives from the backend: a number, a
string, or null.  A missing field is represented as none at use sites. -/
inductive JVal : Type
  | num (q : Rat)
  | str (s : String)
  | null
deriving DecidableEq, Repr

/-- JavaScript truthiness of a present value: 0, the empty string and null
are falsy. -/
def JVal.truthy : JVal → Bool
  | .num q => q ≠ 0
  | .str s => s ≠ ""
  | .null => false

/-- Model of "a || b" on possibly-missing values: the left value is kept
when truthy, otherwise the right side is the result. -/
def jsOr (a b : Option JVal) : Option JVal :=
  match a with
  | some v => if v.truthy then some v else b
  | none => b

/-- Model of "a || b || c" for string fields with a string default, as used
for the deliveryPeriod and market metadata fields. -/
def jsOrStr (a b : Option String) (dflt : String) : String :=
  match a with
  | some s => if s ≠ "" then s else match b with
      | some t => if t ≠ "" then t else dflt
      | none => dflt
  | none => match b with
      | some t => if t ≠ "" then t else dflt
      | none => dflt

example : jsSplit '-' "15:00-15:15" = ["15:00", "15:15"] := by decide

example : jsSplit '-' "2025-03-10 15:00:00" = ["2025", "03", "10 15:00:00"] := by decide

example : jsSplit ' ' "2025/03/10 15:00" = ["2025/03/10", "15:00"] := by decide

example : jsTrim "  15:00 " = "15:00" := by decide

example : jsPadStart "7" 2 '0' = "07" := by decide

example : parseHM "08:30" = some (8, 30) := by decide

example : jsParseFloat "3.25" = some (13/4 : Rat) := by
  have h : jsParseFloat "3.25" = some (((3 : Nat) : Rat) + ((25 : Nat) : Rat) / (10 : Rat) ^ (2 : Nat)) := rfl
  rw [h]; norm_num

example : jsParseInt "60" = some 60 := by decide

/-- Model of parseNumericValue (api.ts): undefined and null map to null,
numbers are returned as they are, strings go through parseFloat with an
isNaN guard, anything else maps to null. -/
def parseNumericValue : Option JVal → Option Rat
  | none => none
  | some .null => none
  | some (.num q) => some q
  | some (.str s) => jsParseFloat s

/-- Hour and minute of a parsed Date, the only two components
processApiResponse reads from item.timestamp.  Construction of the Date
object itself is abstracted away. -/
structure HMTime : Type where
  hours : Nat
  minutes : Nat
deriving DecidableEq, Repr

/-- Raw market-data item as fetched from the backend, with exactly the
fields processApiResponse reads.  Absent fields are none.  String-valued
fields that the source only tests for truthiness and pipes onward are
modelled as strings; the six price fields are dynamic values. -/
structure RawItem : Type where
  Delivery_Period : Option String := none
  delivery_period : Option String := none
  time : Option String := none
  timestamp : Option HMTime := none
  High_Price : Option JVal := none
  high_price : Option JVal := none
  clearedHighPrice : Option JVal := none
  Low_Price : Option JVal := none
  low_price : Option JVal := none
  clearedLowPrice : Option JVal := none
  Forecasted_High : Option JVal := none
  forecasted_high : Option JVal := none
  forecastedHighNordpool : Option JVal := none
  Forecasted_Low : Option JVal := none
  forecasted_low : Option JVal := none
  forecastedLowNordpool : Option JVal := none
  Lumarax_High_Forecast : Option JVal := none
  lumarax_high_forecast : Option JVal := none
  lumaraxHighForecast : Option JVal := none
  Lumarax_Low_Forecast : Option JVal := none
  lumarax_low_forecast : Option JVal := none
  lumaraxLowForecast : Option JVal := none
  Market : Option String := none
  market : Option String := none
  Cleared : Option Bool := none
  cleared : Option Bool := none
deriving DecidableEq, Repr

/-- Normalized price point produced by processApiResponse. -/
structure ProcessedPoint : Type where
  time : String
  clearedHighPrice : Option Rat
  clearedLowPrice : Option Rat
  forecastedHighNordpool : Option Rat
  forecastedLowNordpool : Option Rat
  lumaraxHighForecast : Option Rat
  lumaraxLowForecast : Option Rat
  deliveryPeriod : String
  market : String
  cleared : Option Bool
deriving DecidableEq, Repr

/-- Time extraction from a truthy Delivery_Period: the source splits on
the dash; with more than one part it takes the trimmed first part,
otherwise the part after the first space, falling back to the whole
string when that part is missing or empty. -/
def timeFromDeliveryPeriod (dp : String) : String :=
  let periodParts := jsSplit '-' dp
  if periodParts.length > 1 then jsTrim (periodParts.headD "")
  else
    let afterSpace := (jsSplit ' ' dp).getD 1 ""
    if afterSpace = "" then dp else afterSpace

/-- Time string selected for an item: a truthy Delivery_Period wins, then a
truthy time field, then the zero-padded hour and minute of the timestamp;
an item with none of them is dropped (none). -/
def rawTimeStr (item : RawItem) : Option String :=
  match item.Delivery_Period with
  | some dp =>
    if dp ≠ "" then some (timeFromDeliveryPeriod dp) else
      match item.time with
      | some t => if t ≠ "" then some t else
          item.timestamp.map fun ts =>
            jsPadStart (Nat.repr ts.hours) 2 '0' ++ ":" ++ jsPadStart (Nat.repr ts.minutes) 2 '0'
      | none =>
          item.timestamp.map fun ts =>
            jsPadStart (Nat.repr ts.hours) 2 '0' ++ ":" ++ jsPadStart (Nat.repr ts.minutes) 2 '0'
  | none =>
      match item.time with
      | some t => if t ≠ "" then some t else
          item.timestamp.map fun ts =>
            jsPadStart (Nat.repr ts.hours) 2 '0' ++ ":" ++ jsPadStart (Nat.repr ts.minutes) 2 '0'
      | none =>
          item.timestamp.map fun ts =>
            jsPadStart (Nat.repr ts.hours) 2 '0' ++ ":" ++ jsPadStart (Nat.repr ts.minutes) 2 '0'

/-- Normalization of the selected time string to zero-padded HH:MM, applied
only when the string contains a colon and splits into at least two parts. -/
def normalizeTimeStr (timeStr : String) : String :=
  if jsIncludes timeStr ':' then
    let timeParts := jsSplit ':' timeStr
    if timeParts.length ≥ 2 then
      jsPadStart (timeParts.getD 0 "") 2 '0' ++ ":" ++ jsPadStart (timeParts.getD 1 "") 2 '0'
    else timeStr
  else timeStr

/-- Per-item mapping body of processApiResponse; none models the null an
item without any time source is turned into before being filtered out. -/
def processItem (item : RawItem) : Option ProcessedPoint :=
  (rawTimeStr item).map fun timeStr =>
    { time := normalizeTimeStr timeStr
      clearedHighPrice := parseNumericValue (jsOr item.High_Price (jsOr item.high_price item.clearedHighPrice))
      clearedLowPrice := parseNumericValue (jsOr item.Low_Price (jsOr item.low_price item.clearedLowPrice))
      forecastedHighNordpool := parseNumericValue (jsOr item.Forecasted_High (jsOr item.forecasted_high item.forecastedHighNordpool))
      forecastedLowNordpool := parseNumericValue (jsOr item.Forecasted_Low (jsOr item.forecasted_low item.forecastedLowNordpool))
      lumaraxHighForecast := parseNumericValue (jsOr item.Lumarax_High_Forecast (jsOr item.lumarax_high_forecast item.lumaraxHighForecast))
      lumaraxLowForecast := parseNumericValue (jsOr item.Lumarax_Low_Forecast (jsOr item.lumarax_low_forecast item.lumaraxLowForecast))
      deliveryPeriod := jsOrStr item.Delivery_Period item.delivery_period ""
      market := jsOrStr item.Market item.market ""
      cleared := match item.Cleared with
        | some b => some b
        | none => item.cleared }

/-- Model of generateSamplePriceData: the server-unreachable fallback
returns the empty array and fabricates nothing. -/
def generateSamplePriceData : List ProcessedPoint := []

/-- Model of processApiResponse on an array response: map each item,
filter out the nulls, and fall back to the sample data when no item
survives.  The not-an-array early return is handled at the call sites,
which only invoke this on arrays. -/
def processApiResponse (data : List RawItem) : List ProcessedPoint :=
  let processedData := data.filterMap processItem
  if processedData.length = 0 then generateSamplePriceData else processedData

example :
    processItem { Delivery_Period := some "15:00-15:15" } =
      some { time := "15:00", clearedHighPrice := none, clearedLowPrice := none,
             forecastedHighNordpool := none, forecastedLowNordpool := none,
             lumaraxHighForecast := none, lumaraxLowForecast := none,
             deliveryPeriod := "15:00-15:15", market := "", cleared := none } := by decide

example :
    (processItem { Delivery_Period := some "2025-03-10 15:00:00" }).map (fun p => p.time) =
      some "2025" := by decide

example :
    (processItem { time := some "7:5" }).map (fun p => p.time) = some "07:05" := by decide

/-- Query-parameter object built by fetchPriceData: start_date and end_date
keys are added only when the arguments are provided.  JSON.stringify on two
such objects agrees exactly when the two field pairs agree (keys are added
in a fixed order and string serialization is injective), so comparison of
serializations is modelled as equality of this structure. -/
structure PriceParams : Type where
  start_date : Option String
  end_date : Option String
deriving DecidableEq, Repr

/-- Module-level price-data cache (the single slot priceDataCache): data is
null or a previously processed array, plus the write time, the parameters
of that write, and the TTL. -/
structure PriceCache : Type where
  data : Option (List ProcessedPoint)
  timestamp : Int
  params : PriceParams
  cacheTTL : Int
deriving DecidableEq, Repr

/-- Initial value of the cache slot: null data, zero timestamp, empty
params, five-minute TTL. -/
def initialPriceCache : PriceCache :=
  { data := none, timestamp := 0, params := ⟨none, none⟩, cacheTTL := 5 * 60 * 1000 }

/-- Body of an HTTP response as fetchPriceData inspects it: response.data
is either not an array (including null or an object) or an array of raw
items. -/
inductive RespData : Type
  | notArray
  | arr (items : List RawItem)
deriving DecidableEq, Repr

/-- Condition under which fetchPriceData accepts a response: response.data
is a non-empty array. -/
def RespData.usable : RespData → Bool
  | .notArray => false
  | .arr items => items.length > 0

/-- Result of one fetchPriceData call: the returned array, the cache slot
after the call, and how many HTTP requests were issued (0, 1 or 2). -/
structure FetchPriceResult : Type where
  result : List ProcessedPoint
  cache : PriceCache
  requests : Nat
deriving DecidableEq, Repr

/-- Model of fetchPriceData.  Arguments: the two optional date parameters,
the current time in milliseconds, the cache slot, and the outcomes of the
primary and secondary endpoint requests (only consulted if the
corresponding request is reached).  With matching params, a fresh
timestamp and non-null data the cached array is returned with no request;
otherwise the endpoints are tried in order, a usable (non-empty array)
response is processed and overwrite the slot, and if neither attempt is
usable the sample fallback is returned with the cache untouched. -/
def fetchPriceDataFresh (params : PriceParams) (now : Int)
    (resp1 resp2 : Except ApiError RespData) (cache : PriceCache) : FetchPriceResult :=
  match resp1 with
  | .ok (.arr items) =>
    if items.length > 0 then
      let processedData := processApiResponse items
      ⟨processedData, { cache with data := some processedData, timestamp := now, params := params }, 1⟩
    else
      match resp2 with
      | .ok (.arr items2) =>
        if items2.length > 0 then
          let processedData := processApiResponse items2
          ⟨processedData, { cache with data := some processedData, timestamp := now, params := params }, 2⟩
        else ⟨generateSamplePriceData, cache, 2⟩
      | _ => ⟨generateSamplePriceData, cache, 2⟩
  | _ =>
    match resp2 with
    | .ok (.arr items2) =>
      if items2.length > 0 then
        let processedData := processApiResponse items2
        ⟨processedData, { cache with data := some processedData, timestamp := now, params := params }, 2⟩
      else ⟨generateSamplePriceData, cache, 2⟩
    | _ => ⟨generateSamplePriceData, cache, 2⟩

/-- Model of fetchPriceData proper: the cache-hit test followed by the
fresh fetch above on a miss. -/
def fetchPriceData (startDate endDate : Option String) (now : Int)
    (resp1 resp2 : Except ApiError RespData) (cache : PriceCache) : FetchPriceResult :=
  let params : PriceParams := ⟨startDate, endDate⟩
  let paramsMatch := params = cache.params
  let cacheIsFresh := now - cache.timestamp < cache.cacheTTL
  match cache.data with
  | some cached =>
    if paramsMatch ∧ cacheIsFresh then ⟨cached, cache, 0⟩
    else fetchPriceDataFresh params now resp1 resp2 cache
  | none => fetchPriceDataFresh params now resp1 resp2 cache

example :
    (fetchPriceData (some "2025-03-01") none 1000 (.error "down") (.error "down")
      initialPriceCache).result = [] := by decide

example :
    (fetchPriceData none none 1000 (.error "down") (.error "down")
      { initialPriceCache with data := some [], timestamp := 900 }).requests = 0 := by decide

/-- Outcome of one invocation of fetchData inside useScheduledFetch. -/
inductive FetchOutcome : Type
  | success
  | failure
deriving DecidableEq, Repr

/-- Result of the retry bookkeeping of one fetchData invocation: the new
value of retryCountRef and, when a retry was scheduled, the delay in
milliseconds of the scheduled setTimeout. -/
structure RetryStepResult : Type where
  retryCount : Nat
  scheduledRetry : Option Nat
deriving DecidableEq, Repr

/-- Model of the retry logic of fetchData in useScheduledFetch: a success
resets the counter and schedules nothing; a failure with retryOnError set
and the counter below maxRetries increments the counter and schedules a
retry after retryDelay milliseconds; a failure with the counter at or
above maxRetries resets the counter to 0 and schedules nothing; any other
failure leaves the counter unchanged. -/
def fetchStep (maxRetries retryDelay : Nat) (retryOnError : Bool) (retryCount : Nat) :
    FetchOutcome → RetryStepResult
  | .success => ⟨0, none⟩
  | .failure =>
    if retryOnError ∧ retryCount < maxRetries then ⟨retryCount + 1, some retryDelay⟩
    else if maxRetries ≤ retryCount then ⟨0, none⟩
    else ⟨retryCount, none⟩

/-- Attempt counter for a run of consecutive failures, structurally
recursive in the number of retries still allowed. -/
def failAttemptsAux : Nat → Nat
  | 0 => 1
  | r + 1 => 1 + failAttemptsAux r

/-- Number of fetchData invocations a persistently failing fetch performs
starting from a given retry count: the triggering attempt plus one more
for every scheduled retry.  The recurrence this satisfies, proved below,
is failAttempts m c = if c < m then 1 + failAttempts m (c + 1) else 1,
mirroring one failing attempt followed by its scheduled retry. -/
def failAttempts (maxRetries : Nat) (retryCount : Nat) : Nat :=
  failAttemptsAux (maxRetries - retryCount)

/-- Action the Dashboard connection test takes after a failed attempt:
either schedule another run after a delay in milliseconds, incrementing
timeoutCount, or mark the API as unavailable. -/
inductive DashAction : Type
  | scheduleRetry (delayMs : Nat)
  | declareUnavailable
deriving DecidableEq, Repr

/-- Model of the failure branch of testConnection in Dashboard.tsx: while
timeoutCount is below 3 it re-runs after 3000 ms, otherwise it declares
the API unavailable. -/
def dashRetryStep (timeoutCount : Nat) : DashAction :=
  if timeoutCount < 3 then .scheduleRetry 3000 else .declareUnavailable

/-- Number of re-runs the Dashboard connection test performs from a given
timeoutCount when every attempt fails: one per remaining increment of
timeoutCount below the limit of 3.  The recurrence this satisfies, proved
below, is dashFailRuns c = if c < 3 then 1 + dashFailRuns (c + 1) else 0. -/
def dashFailRuns (timeoutCount : Nat) : Nat := 3 - timeoutCount

example : failAttempts 3 0 = 4 := by decide

example : dashFailRuns 0 = 3 := by decide

/-- Stored authentication data, reduced to the field the interceptor logic
inspects (the access token); a user object wraps such a value. -/
structure AuthUser : Type where
  access_token : String
deriving DecidableEq, Repr

/-- Model of refreshToken (api.ts): with no stored user it returns null
without any request; otherwise it posts to the refresh endpoint, returns
the response on success, and on error logs the user out and resolves with
null.  The pair returned is (function result, stored user afterwards). -/
def refreshTokenM (stored : Option AuthUser) (http : Except ApiError AuthUser) :
    Option AuthUser × Option AuthUser :=
  match stored with
  | none => (none, none)
  | some _ =>
    match http with
    | .ok r => (some r, stored)
    | .error _ => (none, none)

/-- Action the response interceptor ends with for the intercepted request. -/
inductive InterceptAction : Type
  | reject
  | retryRequest (authHeader : String)
deriving DecidableEq, Repr

/-- Full outcome of the response-error interceptor: the action taken, the
request retry flag afterwards, the stored user afterwards, and how many
token-refresh attempts were performed. -/
structure InterceptResult : Type where
  action : InterceptAction
  retryFlag : Bool
  stored : Option AuthUser
  refreshCalls : Nat
deriving DecidableEq, Repr

/-- Model of the response-error interceptor (api.ts lines 779 to 828).
Arguments: the HTTP status of the failed response (none for a network
error without a response), the request retry flag, the stored user, and
the outcome the refresh request would have.  A 401 on a request not yet
retried sets the flag and, when a user is stored, refreshes exactly once:
a refresh result carrying a truthy token stores it and re-issues the
request with the new Authorization header, anything else logs out and
rejects.  Every other error, including a 401 on an already-retried
request, is rejected without touching anything. -/
def responseInterceptor (status : Option Nat) (retryFlag : Bool)
    (stored : Option AuthUser) (http : Except ApiError AuthUser) : InterceptResult :=
  if status = some 401 ∧ retryFlag = false then
    match stored with
    | some _ =>
      let refreshed := refreshTokenM stored http
      match refreshed.1 with
      | some r =>
        if r.access_token ≠ "" then
          ⟨.retryRequest ("Bearer " ++ r.access_token), true, some r, 1⟩
        else ⟨.reject, true, none, 1⟩
      | none => ⟨.reject, true, refreshed.2, 1⟩
    | none => ⟨.reject, true, none, 0⟩
  else ⟨.reject, retryFlag, stored, 0⟩

example :
    responseInterceptor (some 401) false (some ⟨"old"⟩) (.ok ⟨"new"⟩) =
      ⟨.retryRequest "Bearer new", true, some ⟨"new"⟩, 1⟩ := by decide

example :
    responseInterceptor (some 401) true (some ⟨"old"⟩) (.ok ⟨"new"⟩) =
      ⟨.reject, true, some ⟨"old"⟩, 0⟩ := by decide

/-- Decimal-hour value of a parsed (hours, minutes) pair, hours plus
minutes over sixty, as both DateRangeFilter conversions compute it. -/
def decOfHM (p : Nat × Nat) : Rat := (p.1 : Rat) + (p.2 : Rat) / 60

/-- Total decimal-hour function on strings, defined for convenience of
statements; on strings parseHM rejects it returns 0, but every use below
is guarded by parse success. -/
def decHM (s : String) : Rat :=
  match parseHM s with
  | some p => decOfHM p
  | none => 0

/-- Minutes-since-midnight value of a time string, a parse-level integer
used to state the between-the-extremes hypothesis decidably. -/
def hmMinutes (s : String) : Nat :=
  match parseHM s with
  | some p => 60 * p.1 + p.2
  | none => 0

/-- Mapping of the sorted unique time strings to (time, decimal) pairs; a
string either of whose first two colon fragments is not a digit run would
produce NaN in the source, modelled as none for the whole call. -/
def mapDecimals : List String → Option (List (String × Rat))
  | [] => some []
  | t :: ts =>
    match parseHM t with
    | none => none
    | some p => (mapDecimals ts).map (fun r => (t, decOfHM p) :: r)

/-- Scan of the for loop in calculateTimePosition: walk adjacent pairs and
return the first pair enclosing the target, none when no pair matches
(loop runs to the end without hitting the break). -/
def scanTicks : List (String × Rat) → Rat → Option ((String × Rat) × (String × Rat))
  | x :: y :: rest, t =>
    if x.2 ≤ t ∧ t ≤ y.2 then some (x, y) else scanTicks (y :: rest) t
  | _, _ => none

/-- Model of calculateTimePosition (DateRangeFilter.tsx lines 107 to 166).
The target string is parsed, the unique data times are collected in
first-occurrence order and sorted lexicographically, each is converted to
decimal hours and the pairs are sorted by decimal, the enclosing ticks are
found (defaulting to the first and last), and the position is interpolated
from the index of the lower tick.  An empty data list makes the source
dereference undefined and land in the catch with the fallback 50.  A
non-parsing target or data time yields NaN in the source rather than an
exception; those inputs are outside the modelled domain and map to none. -/
def calculateTimePosition (timeStr : String) (dataTimes : List String) : Option Rat :=
  match parseHM timeStr with
  | none => none
  | some tp =>
    let targetDecimal := decOfHM tp
    let uniqueTimes := (jsSetDedup dataTimes).mergeSort (fun a b => a ≤ b)
    match mapDecimals uniqueTimes with
    | none => none
    | some pairs =>
      let timeToDecimal := pairs.mergeSort (fun a b => a.2 ≤ b.2)
      if timeToDecimal.isEmpty then some 50
      else
        let first := timeToDecimal.headD ("", 0)
        let afterDefault := timeToDecimal.getLastD ("", 0)
        let ticks := (scanTicks timeToDecimal targetDecimal).getD (first, afterDefault)
        let beforeTick := ticks.1
        let afterTick := ticks.2
        let timeRange := afterTick.2 - beforeTick.2
        let timePosition := targetDecimal - beforeTick.2
        let percentBetweenTimes := if timeRange > 0 then timePosition / timeRange else 0
        let beforeIndex := uniqueTimes.indexOf beforeTick.1
        let totalPoints := uniqueTimes.length - 1
        if totalPoints = 0 then none
        else
          let segmentPercent := (100 : Rat) / (totalPoints : Rat)
          some ((beforeIndex : Rat) * segmentPercent + percentBetweenTimes * segmentPercent)

/-- Index of the nearest tick at or below the target in an ascending list
of decimal tick values: one less than the length of the prefix of values
not exceeding the target. -/
def nearestBelowIndex (decs : List Rat) (t : Rat) : Nat :=
  (decs.takeWhile (fun d => decide (d ≤ t))).length - 1

/-- Position formula of claim C5, built from the claim text: with n the
number of distinct times, beforeIndex the index of the nearest tick at or
below the target, and fraction the target's linear position between the
two surrounding ticks (zero when the target sits on the last tick), the
position is beforeIndex * 100 / (n - 1) + fraction * 100 / (n - 1). -/
def claimPosition (decs : List Rat) (t : Rat) : Rat :=
  let n := decs.length
  let seg := (100 : Rat) / ((n : Rat) - 1)
  let j := nearestBelowIndex decs t
  let frac : Rat :=
    if j + 1 < n then (t - decs.getD j 0) / (decs.getD (j + 1) 0 - decs.getD j 0) else 0
  (j : Rat) * seg + frac * seg

/-- HH:MM well-formedness used by claim C5: exactly two digits, a colon,
and two digits denoting fewer than 60 minutes. -/
def isHHMM (s : String) : Bool :=
  match s.data with
  | [h1, h2, c, m1, m2] =>
    h1.isDigit && h2.isDigit && c = ':' && m1.isDigit && m2.isDigit &&
      10 * digitVal m1 + digitVal m2 < 60
  | _ => false

example : isHHMM "08:30" = true := by decide

example : isHHMM "8:30" = false := by decide

example : calculateTimePosition "08:30" [] = some 50 := by
  simp [calculateTimePosition, jsSetDedup, mapDecimals,
    show parseHM "08:30" = some (8, 30) from rfl]

/-- First-truthy choice between an optional string and a default, the
pattern of expressions such as trade.Status or the literal default. -/
def jsStrOr (a : Option String) (dflt : String) : String :=
  match a with
  | some s => if s ≠ "" then s else dflt
  | none => dflt

/-- First-truthy choice between an optional number and a default, the
pattern of expressions such as trade.Resolution or 60 (zero is falsy). -/
def jsNatOr (a : Option Nat) (dflt : Nat) : Nat :=
  match a with
  | some n => if n ≠ 0 then n else dflt
  | none => dflt

/-- Trade request handed to executeTrade by the chart order handlers, with
the fields those handlers fill in. -/
structure TradeRequestM : Type where
  type : String
  quantity : Rat
  executionTime : Int
  resolution : Int
  market : String
deriving DecidableEq, Repr

/-- Model of handleBuyOrder (PriceChart.tsx lines 1057 to 1115) up to the
executeTrade call: the returned value is the request passed to
executeTrade, or none when a validation alert aborts the submission.
Arguments: the entered quantity, the epoch milliseconds of the Date built
from the selected window (construction of the Date abstracted away), the
current epoch milliseconds, and the duration string of the selected
window.  Checks in source order: positive quantity, execution at least 30
seconds ahead, then a parsed duration among 15, 30 and 60. -/
def handleBuyOrder (buyQuantity : Rat) (executionDateTime now : Int)
    (duration : String) : Option TradeRequestM :=
  if buyQuantity ≤ 0 then none
  else
    let minExecutionTime := now + 30 * 1000
    if executionDateTime < minExecutionTime then none
    else
      match jsParseInt duration with
      | none => none
      | some resolution =>
        if resolution = 15 ∨ resolution = 30 ∨ resolution = 60 then
          some ⟨"buy", buyQuantity, executionDateTime, resolution, "Germany"⟩
        else none

/-- Model of handleSellOrder (PriceChart.tsx lines 1118 to 1199) up to the
executeTrade call, with the battery level percentage and total capacity
as additional inputs.  Checks in source order: positive quantity, enough
stored energy (level times total capacity over 100), execution at least
30 seconds ahead, then a parsed duration among 15, 30 and 60. -/
def handleSellOrder (sellQuantity level totalCapacity : Rat)
    (executionDateTime now : Int) (duration : String) : Option TradeRequestM :=
  if sellQuantity ≤ 0 then none
  else
    let currentBatteryLevel := level * totalCapacity / 100
    if sellQuantity > currentBatteryLevel then none
    else
      let minExecutionTime := now + 30 * 1000
      if executionDateTime < minExecutionTime then none
      else
        match jsParseInt duration with
        | none => none
        | some resolution =>
          if resolution = 15 ∨ resolution = 30 ∨ resolution = 60 then
            some ⟨"sell", sellQuantity, executionDateTime, resolution, "Germany"⟩
          else none

/-- Battery history reading as shaped by the fallback in
fetchBatteryHistory. -/
structure BatteryHistoryItem : Type where
  time : String
  level : Rat
  action : Option String
deriving DecidableEq, Repr

/-- Fallback array fetchBatteryHistory resolves with on error: twenty-four
readings fabricated on the client, hour strings 0:00 through 23:00, all
at level 50 with no action. -/
def batteryHistoryFallback : List BatteryHistoryItem :=
  (List.range 24).map fun i => ⟨Nat.repr i ++ ":00", 50, none⟩

/-- Model of fetchBatteryHistory: the response body on success, the
fabricated fallback on error; the promise never rejects. -/
def fetchBatteryHistory (resp : Except ApiError (List BatteryHistoryItem)) :
    List BatteryHistoryItem :=
  match resp with
  | .ok d => d
  | .error _ => batteryHistoryFallback

/-- Raw battery-status payload with the fields fetchBatteryStatus reads. -/
structure RawBattery : Type where
  level : Option Rat := none
  Current_Level : Option Rat := none
  current_level : Option Rat := none
  Total_Capacity : Option Rat := none
  total_capacity : Option Rat := none
  capacityTotal : Option Rat := none
  Usable_Capacity : Option Rat := none
  usable_capacity : Option Rat := none
  capacityUsable : Option Rat := none
  charging_state : Option String := none
  Charging_State : Option String := none
  charging_rate : Option Rat := none
  Charging_Rate : Option Rat := none
  Last_Updated : Option String := none
  last_updated : Option String := none
deriving DecidableEq, Repr

/-- Battery status as returned to callers of fetchBatteryStatus. -/
structure BatteryStatusM : Type where
  level : Rat
  total : Rat
  usable : Rat
  charging_state : String
  charging_rate : Rat
  last_updated : String
deriving DecidableEq, Repr

/-- Default battery status fetchBatteryStatus resolves with on error. -/
def batteryStatusFallback (nowIso : String) : BatteryStatusM :=
  ⟨0, 5 / 2, 2, "idle", 0, nowIso⟩

/-- Model of fetchBatteryStatus: level falls back from level to
Current_Level to current_level, total capacity from Total_Capacity to
total_capacity to a truthy capacity.total to 2.5, and a defined level
lying between 0 and a positive total capacity is rescaled from an
absolute value to a percentage; the remaining fields use first-defined or
first-truthy chains with their literal defaults. -/
def fetchBatteryStatus (nowIso : String) (resp : Except ApiError RawBattery) :
    BatteryStatusM :=
  match resp with
  | .error _ => batteryStatusFallback nowIso
  | .ok data =>
    let level0 : Option Rat :=
      match data.level with
      | some l => some l
      | none => match data.Current_Level with
        | some l => some l
        | none => data.current_level
    let totalCapacity : Rat :=
      match data.Total_Capacity with
      | some t => t
      | none => match data.total_capacity with
        | some t => t
        | none => match data.capacityTotal with
          | some t => if t ≠ 0 then t else 5 / 2
          | none => 5 / 2
    let level1 : Option Rat :=
      match level0 with
      | some l =>
        if totalCapacity > 0 ∧ 0 ≤ l ∧ l ≤ totalCapacity then
          some (l / totalCapacity * 100)
        else some l
      | none => none
    { level := level1.getD 0
      total := totalCapacity
      usable :=
        match data.Usable_Capacity with
        | some u => u
        | none => match data.usable_capacity with
          | some u => u
          | none => match data.capacityUsable with
            | some u => if u ≠ 0 then u else 2
            | none => 2
      charging_state := jsStrOr data.charging_state (jsStrOr data.Charging_State "idle")
      charging_rate :=
        match data.charging_rate with
        | some r => if r ≠ 0 then r else
            match data.Charging_Rate with
            | some r2 => if r2 ≠ 0 then r2 else 0
            | none => 0
        | none => match data.Charging_Rate with
          | some r2 => if r2 ≠ 0 then r2 else 0
          | none => 0
      last_updated := jsStrOr data.Last_Updated (jsStrOr data.last_updated nowIso) }

/-- Model of String.prototype.toLowerCase restricted to the ASCII range,
character by character. -/
def jsToLowerCase (s : String) : String :=
  List.asString (s.data.map fun c =>
    if 65 ≤ c.toNat ∧ c.toNat ≤ 90 then Char.ofNat (c.toNat + 32) else c)

/-- Raw trade row as fetchTradeHistory receives it from the backend, with
the BigQuery column names the mapping reads. -/
structure RawTrade : Type where
  Trade_Price : Option Rat := none
  Quantity : Option Rat := none
  Trade_Type : Option String := none
  Trade_ID : Option Nat := none
  Timestamp : Option String := none
  Resolution : Option Nat := none
  Status : Option String := none
  Market : Option String := none
  Error_Message : Option String := none
deriving DecidableEq, Repr

/-- Trade object as fetchTradeHistory returns it to the UI. -/
structure MappedTrade : Type where
  id : String
  type : String
  price : Rat
  quantity : Rat
  timestamp : String
  executionTime : String
  resolution : String
  deliveryPeriod : String
  averagePrice : Rat
  closePrice : Rat
  volume : Rat
  status : String
  market : String
  errorMessage : Option String
deriving DecidableEq, Repr

/-- Per-row mapping body of fetchTradeHistory.  Arguments: the ISO string
a Date built now would print (for the Timestamp fallbacks), the string
Math.random().toString() would yield at each index (an oracle for the
nondeterministic id fallback), the positional index, and the row.  On
numeric fields the first-truthy-or-default chains collapse to
defined-or-default since a falsy number is the default 0 anyway; the
trade type is lowercased before the comparison with the sell literal. -/
def mapTrade (nowIso : String) (rnd : Nat → String) (index : Nat)
    (trade : RawTrade) : MappedTrade :=
  let price := trade.Trade_Price.getD 0
  let quantity := trade.Quantity.getD 0
  let tradeType :=
    match trade.Trade_Type with
    | some s => if jsToLowerCase s ≠ "" then jsToLowerCase s else "buy"
    | none => "buy"
  let tradeId :=
    match trade.Trade_ID with
    | some n => Nat.repr n
    | none => rnd index
  { id := tradeId ++ "-" ++ Nat.repr index
    type := if tradeType = "sell" then "sell" else "buy"
    price := price
    quantity := quantity
    timestamp := jsStrOr trade.Timestamp nowIso
    executionTime := jsStrOr trade.Timestamp nowIso
    resolution := Nat.repr (jsNatOr trade.Resolution 60) ++ "m"
    deliveryPeriod :=
      match trade.Timestamp with
      | some s => jsStrOr (some (jsSubstring s 11 16)) "00:00"
      | none => "00:00"
    averagePrice := price
    closePrice := price
    volume := quantity
    status := jsStrOr trade.Status "pending"
    market := jsStrOr trade.Market "nordpool"
    errorMessage := trade.Error_Message.bind fun s => if s = "" then none else some s }

/-- Model of fetchTradeHistory: map each row of a successful response with
its index, resolve with the empty list on any error. -/
def fetchTradeHistory (nowIso : String) (rnd : Nat → String)
    (resp : Except ApiError (List RawTrade)) : List MappedTrade :=
  match resp with
  | .ok data => data.mapIdx (mapTrade nowIso rnd)
  | .error _ => []

/-- Chart point inside a performance-metrics payload. -/
structure ChartPoint : Type where
  date : String
  profit : Rat
  revenue : Rat
deriving DecidableEq, Repr

/-- Raw performance-metrics payload; chartData is none when the field is
not an array. -/
structure RawMetrics : Type where
  totalRevenue : Option Rat := none
  totalProfit : Option Rat := none
  totalCosts : Option Rat := none
  totalVolume : Option Rat := none
  profitMargin : Option Rat := none
  trade_count : Option Rat := none
  accuracy : Option Rat := none
  currentBalance : Option Rat := none
  chartData : Option (List ChartPoint) := none
deriving DecidableEq, Repr

/-- Metrics object fetchPerformanceMetrics resolves with. -/
structure MetricsM : Type where
  totalRevenue : Rat
  totalProfit : Rat
  totalCosts : Rat
  totalVolume : Rat
  profitMargin : Rat
  tradeCount : Rat
  accuracy : Rat
  currentBalance : Rat
  chartData : List ChartPoint
deriving DecidableEq, Repr

/-- Zeroed metrics object used as the safe fallback. -/
def metricsFallback : MetricsM := ⟨0, 0, 0, 0, 0, 0, 0, 0, []⟩

/-- Model of fetchPerformanceMetrics: a response with falsy data is thrown
and caught, every caught error resolves with the zeroed fallback, and a
truthy payload is mapped field-by-field with zero defaults (falsy numeric
fields collapse to the default 0). -/
def fetchPerformanceMetrics (resp : Except ApiError (Option RawMetrics)) : MetricsM :=
  match resp with
  | .error _ => metricsFallback
  | .ok none => metricsFallback
  | .ok (some d) =>
    { totalRevenue := d.totalRevenue.getD 0
      totalProfit := d.totalProfit.getD 0
      totalCosts := d.totalCosts.getD 0
      totalVolume := d.totalVolume.getD 0
      profitMargin := d.profitMargin.getD 0
      tradeCount := d.trade_count.getD 0
      accuracy := d.accuracy.getD 0
      currentBalance := d.currentBalance.getD 0
      chartData := d.chartData.getD [] }

/-- Model of fetchMarketData: the response body on success, the empty list
on error; the payload passes through untouched. -/
def fetchMarketData {α : Type} (resp : Except ApiError (List α)) : List α :=
  match resp with
  | .ok d => d
  | .error _ => []

/-- Payload of the saved-forecasts endpoint; the forecast rows pass
through untouched so their row type is a parameter. -/
structure ForecastsResp (α : Type) : Type where
  forecasts : List α
  count : Nat
  status : String
deriving DecidableEq, Repr

/-- Model of fetchSavedForecasts: the response body on success, an
error-status object with no forecasts on error. -/
def fetchSavedForecasts {α : Type} (resp : Except ApiError (ForecastsResp α)) :
    ForecastsResp α :=
  match resp with
  | .ok d => d
  | .error _ => ⟨[], 0, "error"⟩

/-- Model of chargeBattery: the response body is resolved on success and
the error is re-thrown on failure (the function body posts the quantity
and otherwise passes the outcome through). -/
def chargeBattery {α : Type} (amount : Rat) (resp : Except ApiError α) :
    Except ApiError α :=
  match resp with
  | .ok d => .ok d
  | .error e => .error e

/-- Model of dischargeBattery, identical error behaviour to
chargeBattery. -/
def dischargeBattery {α : Type} (amount : Rat) (resp : Except ApiError α) :
    Except ApiError α :=
  match resp with
  | .ok d => .ok d
  | .error e => .error e

/-- Model of executeTrade: request mapping aside, the response body is
resolved on success and the error is re-thrown after logging. -/
def executeTrade {α : Type} (req : TradeRequestM) (resp : Except ApiError α) :
    Except ApiError α :=
  match resp with
  | .ok d => .ok d
  | .error e => .error e

/-- Model of executeAllPendingTrades: resolve the body or re-throw. -/
def executeAllPendingTrades {α : Type} (resp : Except ApiError α) :
    Except ApiError α :=
  match resp with
  | .ok d => .ok d
  | .error e => .error e

/-- Model of cancelAllPendingTrades: resolve the body or re-throw. -/
def cancelAllPendingTrades {α : Type} (resp : Except ApiError α) :
    Except ApiError α :=
  match resp with
  | .ok d => .ok d
  | .error e => .error e

example :
    (fetchTradeHistory "2025-01-01T00:00:00Z" (fun _ => "0.5")
      (.ok [{ Trade_Type := some "SELL" }])).map (fun t => t.type) = ["sell"] := by decide

example :
    (fetchTradeHistory "2025-01-01T00:00:00Z" (fun _ => "0.5")
      (.ok [{ Trade_ID := some 7, Timestamp := some "2025-03-10T15:00:00Z" }])).map
        (fun t => (t.id, t.deliveryPeriod)) = [("7-0", "15:00")] := by decide

/-- Usability of an endpoint attempt as fetchPriceData judges it: a
resolved response whose data is a non-empty array. -/
def respUsable : Except ApiError RespData → Bool
  | .ok d => d.usable
  | .error _ => false

/-- Cache-hit condition of fetchPriceData: stored parameters serialize
equal to the request parameters, the slot is younger than its TTL, and
the stored data is non-null. -/
def cacheHit (startDate endDate : Option String) (now : Int) (cache : PriceCache) : Prop :=
  cache.params = ⟨startDate, endDate⟩ ∧ now - cache.timestamp < cache.cacheTTL ∧
    cache.data ≠ none

instance (sd ed : Option String) (now : Int) (cache : PriceCache) :
    Decidable (cacheHit sd ed now cache) := by
  unfold cacheHit; infer_instance

/-- Decimal digit-character expansion of a natural number, most
significant digit first; the fuel-free counterpart of the core expansion
behind Nat.repr, used to reason about the ids built by fetchTradeHistory. -/
def decDigits (n : Nat) : List Char :=
  if n < 10 then [Nat.digitChar n]
  else decDigits (n / 10) ++ [Nat.digitChar (n % 10)]
termination_by n
decreasing_by exact Nat.div_lt_self (by omega) (by omega)

/-- Base-10 value of a digit-character list, as folded by jsNumDigits. -/
def decListVal (l : List Char) : Nat :=
  l.foldl (fun a c => 10 * a + digitVal c) 0

/-- Sorted distinct time values, as calculateTimePosition builds them. -/
def sortedUnique (l : List String) : List String :=
  (jsSetDedup l).mergeSort (fun a b => a ≤ b)

/-- Value of the attempt counter: one attempt per allowed retry plus the
triggering one. -/
theorem failAttemptsAux_eq (r : Nat) : failAttemptsAux r = 1 + r := by
  induction r with
  | zero => rfl
  | succ r ih => simp [failAttemptsAux, ih]; omega

/-- Claim C2: the retry mechanism is a fixed-count timer loop.  In
useScheduledFetch a failure schedules a retry after retryDelay
milliseconds exactly while the counter is below maxRetries; a failure at
or past maxRetries schedules nothing and resets the counter to 0; a
success always resets the counter and schedules nothing; the attempt
count of a persistently failing fetch follows the step function and
totals 1 + maxRetries from a fresh trigger.  The Dashboard connection
test schedules a re-run after 3000 ms exactly while timeoutCount is below
3, declares the API unavailable otherwise, and a persistently failing
test re-runs exactly 3 times. -/
theorem claim_C2_retry_loop :
    (∀ m d c, (fetchStep m d true c .failure).scheduledRetry = some d ↔ c < m) ∧
    (∀ m d c, (fetchStep m d true c .failure).scheduledRetry = none ↔ m ≤ c) ∧
    (∀ m d c, fetchStep m d true (m + c) .failure = ⟨0, none⟩) ∧
    (∀ m d c, fetchStep m d true c .success = ⟨0, none⟩) ∧
    (∀ m d c, failAttempts m c =
      if (fetchStep m d true c .failure).scheduledRetry = some d then
        1 + failAttempts m (fetchStep m d true c .failure).retryCount
      else 1) ∧
    (∀ m, failAttempts m 0 = 1 + m) ∧
    (∀ c, dashRetryStep c = .scheduleRetry 3000 ↔ c < 3) ∧
    (∀ c, dashRetryStep (3 + c) = .declareUnavailable) ∧
    (∀ c, dashFailRuns c = if c < 3 then 1 + dashFailRuns (c + 1) else 0) ∧
    dashFailRuns 0 = 3 := by
  refine ⟨?_, ?_, ?_, ?_, ?_, ?_, ?_, ?_, ?_, rfl⟩
  · intro m d c
    by_cases h : c < m
    · simp [fetchStep, h]
    · simp [fetchStep, h, Nat.le_of_not_lt h]
  · intro m d c
    by_cases h : c < m
    · simp [fetchStep, h]
    · simp [fetchStep, h, Nat.le_of_not_lt h]
  · intro m d c
    have h : ¬ (m + c < m) := by omega
    simp [fetchStep, h]
  · intro m d c
    simp [fetchStep]
  · intro m d c
    by_cases h : c < m
    · simp [fetchStep, h, failAttempts, failAttemptsAux_eq]; omega
    · simp [fetchStep, h, Nat.le_of_not_lt h, failAttempts, failAttemptsAux_eq]
  · intro m
    simp [failAttempts, failAttemptsAux_eq]
  · intro c
    by_cases h : c < 3 <;> simp [dashRetryStep, h]
  · intro c
    have h : ¬ (3 + c < 3) := by omega
    simp [dashRetryStep, h]
  · intro c
    by_cases h : c < 3 <;> simp [dashFailRuns, h] <;> omega

/-- Claim C3: the token-refresh interceptor gives each request at most one
refresh-and-retry.  A 401 on a not-yet-retried request with a stored user
refreshes exactly once: a refresh carrying a truthy token is stored and
the request is re-issued once with the new Authorization header, a failed
refresh or one without a token removes the stored user and rejects.  A
401 with no stored user rejects without refreshing, and any error on an
already-retried request, 401 included, is rejected with no refresh
attempt. -/
theorem claim_C3_interceptor :
    (∀ r : AuthUser, r.access_token ≠ "" → ∀ u,
      responseInterceptor (some 401) false (some u) (.ok r) =
        ⟨.retryRequest ("Bearer " ++ r.access_token), true, some r, 1⟩) ∧
    (∀ u e, responseInterceptor (some 401) false (some u) (.error e) =
        ⟨.reject, true, none, 1⟩) ∧
    (∀ u, responseInterceptor (some 401) false (some u) (.ok ⟨""⟩) =
        ⟨.reject, true, none, 1⟩) ∧
    (∀ h, responseInterceptor (some 401) false none h = ⟨.reject, true, none, 0⟩) ∧
    (∀ st u h, responseInterceptor st true u h = ⟨.reject, true, u, 0⟩) ∧
    (∀ st u h, st ≠ some 401 →
      responseInterceptor st false u h = ⟨.reject, false, u, 0⟩) := by
  refine ⟨?_, ?_, ?_, ?_, ?_, ?_⟩
  · intro r hr u
    simp [responseInterceptor, refreshTokenM, hr]
  · intro u e
    simp [responseInterceptor, refreshTokenM]
  · intro u
    simp [responseInterceptor, refreshTokenM]
  · intro h
    simp [responseInterceptor]
  · intro st u h
    simp [responseInterceptor]
  · intro st u h hst
    simp [responseInterceptor, hst]

/-- Witness for claim C3 at concrete inputs: a fresh 401 with a stored
user and a successful refresh retries with the new bearer token, and a
non-401 error is passed through untouched. -/
theorem claim_C3_interceptor_witness :
    responseInterceptor (some 401) false (some ⟨"old"⟩) (.ok ⟨"new"⟩) =
      ⟨.retryRequest ("Bearer " ++ "new"), true, some ⟨"new"⟩, 1⟩ ∧
    responseInterceptor (some 500) false (some ⟨"old"⟩) (.ok ⟨"new"⟩) =
      ⟨.reject, false, some ⟨"old"⟩, 0⟩ :=
  ⟨claim_C3_interceptor.1 ⟨"new"⟩ (by decide) ⟨"old"⟩,
   claim_C3_interceptor.2.2.2.2.2 (some 500) (some ⟨"old"⟩) (.ok ⟨"new"⟩) (by decide)⟩

/-- Counterexample to claim C8 as stated: for every error,
fetchBatteryHistory resolves with the client-fabricated 24-reading
fallback, which is none of the fallback values the claim enumerates — in
particular it is not the empty array, the only enumerated value of its
list-shaped return type. -/
theorem claim_C8_counterexample :
    fetchBatteryHistory (.error "down") = batteryHistoryFallback ∧
    fetchBatteryHistory (.error "down") ≠ [] ∧
    (fetchBatteryHistory (.error "down")).length = 24 :=
  ⟨rfl, by decide, by decide⟩

/-- Claim C8 as amended: read-only fetch functions never reject while
mutating functions re-throw.  For any error the seven read-only fetchers
resolve with their fallback values (the sample empty array with the cache
slot untouched for price data, a default battery status, the fabricated
24-reading battery history, an empty trade list, zeroed metrics, an empty
market list, an error-status forecast object), while the five mutating
functions propagate the error. -/
theorem claim_C8_error_policy :
    (∀ (sd ed : Option String) (now ts ttl : Int) (ps : PriceParams) (e1 e2 : ApiError),
      fetchPriceData sd ed now (.error e1) (.error e2) ⟨none, ts, ps, ttl⟩ =
        ⟨generateSamplePriceData, ⟨none, ts, ps, ttl⟩, 2⟩) ∧
    (∀ (nowIso : String) (e : ApiError),
      fetchBatteryStatus nowIso (.error e) = batteryStatusFallback nowIso) ∧
    (∀ e : ApiError, fetchBatteryHistory (.error e) = batteryHistoryFallback) ∧
    (∀ (nowIso : String) (rnd : Nat → String) (e : ApiError),
      fetchTradeHistory nowIso rnd (.error e) = []) ∧
    (∀ e : ApiError, fetchPerformanceMetrics (.error e) = metricsFallback) ∧
    (∀ (α : Type) (e : ApiError), @fetchMarketData α (.error e) = []) ∧
    (∀ (α : Type) (e : ApiError),
      @fetchSavedForecasts α (.error e) = ⟨[], 0, "error"⟩) ∧
    (∀ (α : Type) (amount : Rat) (e : ApiError),
      @chargeBattery α amount (.error e) = .error e) ∧
    (∀ (α : Type) (amount : Rat) (e : ApiError),
      @dischargeBattery α amount (.error e) = .error e) ∧
    (∀ (α : Type) (req : TradeRequestM) (e : ApiError),
      @executeTrade α req (.error e) = .error e) ∧
    (∀ (α : Type) (e : ApiError), @executeAllPendingTrades α (.error e) = .error e) ∧
    (∀ (α : Type) (e : ApiError), @cancelAllPendingTrades α (.error e) = .error e) := by
  refine ⟨?_, ?_, ?_, ?_, ?_, ?_, ?_, ?_, ?_, ?_, ?_, ?_⟩ <;> intros <;> rfl

/-- Counterexample to claim C6 as stated: the fetchBatteryHistory fallback
is not free of client-invented readings; it is a non-empty list of 24
entries whose first reading reports level 50 with no action despite no
server data backing it. -/
theorem claim_C6_counterexample :
    batteryHistoryFallback ≠ [] ∧ batteryHistoryFallback.length = 24 ∧
      batteryHistoryFallback.headD ⟨"", 0, none⟩ = ⟨"0:00", 50, none⟩ := by
  refine ⟨by decide, by decide, ?_⟩
  rfl

/-- Claim C6 as amended: all data shown originates from the remote
service, and on errors the fetchers return empty or zeroed results — the
price-data fallback is the empty array — with the one exception of
fetchBatteryHistory, whose fallback is a client-generated list of 24
readings, one per hour, all at level 50 with no action. -/
theorem claim_C6_amended :
    generateSamplePriceData = [] ∧
    (∀ e : ApiError, fetchBatteryHistory (.error e) = batteryHistoryFallback) ∧
    batteryHistoryFallback.length = 24 ∧
    (∀ x ∈ batteryHistoryFallback, x.level = 50 ∧ x.action = none) ∧
    (∀ i (h : i < 24), batteryHistoryFallback.getD i ⟨"", 0, none⟩ =
      ⟨Nat.repr i ++ ":00", 50, none⟩) ∧
    (∀ (nowIso : String) (rnd : Nat → String) (e : ApiError),
      fetchTradeHistory nowIso rnd (.error e) = []) ∧
    (∀ e : ApiError, fetchPerformanceMetrics (.error e) = metricsFallback) ∧
    (∀ (α : Type) (e : ApiError), @fetchMarketData α (.error e) = []) := by
  refine ⟨rfl, fun e => rfl, by decide, ?_, ?_, fun nowIso rnd e => rfl, fun e => rfl,
    fun α e => rfl⟩
  · intro x hx
    simp only [batteryHistoryFallback, List.mem_map] at hx
    obtain ⟨i, _, rfl⟩ := hx
    exact ⟨rfl, rfl⟩
  · intro i h
    have h2 : i < batteryHistoryFallback.length := by simp [batteryHistoryFallback]; omega
    rw [List.getD_eq_getElem _ _ h2]
    simp [batteryHistoryFallback]

/-- Witness for claim C6 as amended at a concrete member: the noon entry
of the fabricated fallback reads level 50 with no action. -/
theorem claim_C6_amended_witness :
    ((⟨"12:00", 50, none⟩ : BatteryHistoryItem).level = 50 ∧
      (⟨"12:00", 50, none⟩ : BatteryHistoryItem).action = none) ∧
    batteryHistoryFallback.getD 12 ⟨"", 0, none⟩ = ⟨Nat.repr 12 ++ ":00", 50, none⟩ :=
  ⟨claim_C6_amended.2.2.2.1 ⟨"12:00", 50, none⟩ (by decide),
   claim_C6_amended.2.2.2.2.1 12 (by decide)⟩

/-- Reduction of fetchPriceData to the fresh path when the hit condition
fails. -/
theorem fetchPriceData_of_not_hit (sd ed : Option String) (now : Int)
    (r1 r2 : Except ApiError RespData) (cache : PriceCache)
    (h : ¬ cacheHit sd ed now cache) :
    fetchPriceData sd ed now r1 r2 cache = fetchPriceDataFresh ⟨sd, ed⟩ now r1 r2 cache := by
  unfold fetchPriceData cacheHit at *
  match hd : cache.data with
  | none => simp
  | some cached =>
    have : ¬ ((⟨sd, ed⟩ : PriceParams) = cache.params ∧ now - cache.timestamp < cache.cacheTTL) := by
      intro ⟨ha, hb⟩
      exact h ⟨ha.symm, hb, by simp [hd]⟩
    simp [this]

/-- Claim C1: fetchPriceData maintains exactly one cache slot with a
five-minute TTL keyed by its parameters.  A call whose parameter pair
equals the stored one, made while the stored data is non-null and younger
than the TTL, returns the cached array with zero requests and the slot
untouched; on a miss, a non-empty array response from either endpoint
overwrites the single slot's data, timestamp and params; and after any
call the single slot holds either the old or the new parameter pair, so
at most one combination is cached at a time.  The TTL constant of the
initial slot is five minutes in milliseconds. -/
theorem claim_C1_cache_slot :
    initialPriceCache.cacheTTL = 5 * 60 * 1000 ∧
    (∀ (sd ed : Option String) (now : Int) (r1 r2 : Except ApiError RespData)
        (cache : PriceCache) (cached : List ProcessedPoint),
      cache.params = ⟨sd, ed⟩ → now - cache.timestamp < cache.cacheTTL →
      cache.data = some cached →
      fetchPriceData sd ed now r1 r2 cache = ⟨cached, cache, 0⟩) ∧
    (∀ (sd ed : Option String) (now : Int) (r2 : Except ApiError RespData)
        (cache : PriceCache) (items : List RawItem),
      ¬ cacheHit sd ed now cache → items ≠ [] →
      fetchPriceData sd ed now (.ok (.arr items)) r2 cache =
        ⟨processApiResponse items,
         ⟨some (processApiResponse items), now, ⟨sd, ed⟩, cache.cacheTTL⟩, 1⟩) ∧
    (∀ (sd ed : Option String) (now : Int) (r1 : Except ApiError RespData)
        (cache : PriceCache) (items2 : List RawItem),
      ¬ cacheHit sd ed now cache → respUsable r1 = false → items2 ≠ [] →
      fetchPriceData sd ed now r1 (.ok (.arr items2)) cache =
        ⟨processApiResponse items2,
         ⟨some (processApiResponse items2), now, ⟨sd, ed⟩, cache.cacheTTL⟩, 2⟩) ∧
    (∀ (sd ed : Option String) (now : Int) (r1 r2 : Except ApiError RespData)
        (cache : PriceCache),
      (fetchPriceData sd ed now r1 r2 cache).cache.params = cache.params ∨
      (fetchPriceData sd ed now r1 r2 cache).cache.params = ⟨sd, ed⟩) := by
  refine ⟨rfl, ?_, ?_, ?_, ?_⟩
  · intro sd ed now r1 r2 cache cached hp hf hd
    unfold fetchPriceData
    simp [hd, hp, hf]
  · intro sd ed now r2 cache items hmiss hne
    rw [fetchPriceData_of_not_hit sd ed now _ r2 cache hmiss]
    unfold fetchPriceDataFresh
    have : items.length > 0 := List.length_pos.mpr hne
    simp [this]
  · intro sd ed now r1 cache items2 hmiss hr1 hne
    rw [fetchPriceData_of_not_hit sd ed now r1 _ cache hmiss]
    unfold fetchPriceDataFresh
    have h2 : items2.length > 0 := List.length_pos.mpr hne
    match r1 with
    | .error e => simp [h2]
    | .ok .notArray => simp [h2]
    | .ok (.arr items) =>
      simp only [respUsable, RespData.usable] at hr1
      have : ¬ (items.length > 0) := by simpa using hr1
      simp [this, h2]
  · intro sd ed now r1 r2 cache
    by_cases h : cacheHit sd ed now cache
    · obtain ⟨hp, hf, hd⟩ := h
      match hd2 : cache.data with
      | none => exact absurd hd2 hd
      | some cached =>
        left
        unfold fetchPriceData
        simp [hd2, hp, hf]
    · rw [fetchPriceData_of_not_hit sd ed now r1 r2 cache h]
      unfold fetchPriceDataFresh
      match r1, r2 with
      | .error e, .error e2 => simp
      | .error e, .ok .notArray => simp
      | .error e, .ok (.arr items2) =>
        by_cases h2 : items2.length > 0 <;> simp [h2]
      | .ok .notArray, .error e2 => simp
      | .ok .notArray, .ok .notArray => simp
      | .ok .notArray, .ok (.arr items2) =>
        by_cases h2 : items2.length > 0 <;> simp [h2]
      | .ok (.arr items), .error e2 =>
        by_cases h1 : items.length > 0 <;> simp [h1]
      | .ok (.arr items), .ok .notArray =>
        by_cases h1 : items.length > 0 <;> simp [h1]
      | .ok (.arr items), .ok (.arr items2) =>
        by_cases h1 : items.length > 0 <;> by_cases h2 : items2.length > 0 <;>
          simp [h1, h2]

/-- Witness for claim C1 at concrete inputs: a fresh matching slot is
served from cache with no request, and on a miss a one-element response
overwrites the slot. -/
theorem claim_C1_cache_slot_witness :
    fetchPriceData (some "2025-03-01") none 1000 (.error "down") (.error "down")
      ⟨some [], 900, ⟨some "2025-03-01", none⟩, 300000⟩ =
      ⟨[], ⟨some [], 900, ⟨some "2025-03-01", none⟩, 300000⟩, 0⟩ ∧
    fetchPriceData none none 1000 (.ok (.arr [{ time := some "09:00" }])) (.error "down")
      initialPriceCache =
      ⟨processApiResponse [{ time := some "09:00" }],
       ⟨some (processApiResponse [{ time := some "09:00" }]), 1000, ⟨none, none⟩,
        initialPriceCache.cacheTTL⟩, 1⟩ :=
  ⟨claim_C1_cache_slot.2.1 (some "2025-03-01") none 1000 (.error "down") (.error "down")
      ⟨some [], 900, ⟨some "2025-03-01", none⟩, 300000⟩ [] rfl (by decide) rfl,
   claim_C1_cache_slot.2.2.1 none none 1000 (.error "down") initialPriceCache
      [{ time := some "09:00" }] (by decide) (by decide)⟩

/-- Claim C9: the price-data cache is updated only by a successful fetch
yielding a non-empty array.  On a miss where both endpoint attempts fail,
return non-array data or an empty array, the call returns the sample
fallback (the empty array) and the cache slot is exactly what it was
before the call. -/
theorem claim_C9_cache_frame (sd ed : Option String) (now : Int)
    (r1 r2 : Except ApiError RespData) (cache : PriceCache)
    (hmiss : ¬ cacheHit sd ed now cache)
    (h1 : respUsable r1 = false) (h2 : respUsable r2 = false) :
    fetchPriceData sd ed now r1 r2 cache = ⟨generateSamplePriceData, cache, 2⟩ := by
  rw [fetchPriceData_of_not_hit sd ed now r1 r2 cache hmiss]
  unfold fetchPriceDataFresh
  match r1, r2 with
  | .error e, .error e2 => simp
  | .error e, .ok .notArray => simp
  | .error e, .ok (.arr items2) =>
    simp only [respUsable, RespData.usable] at h2
    have : ¬ (items2.length > 0) := by simpa using h2
    simp [this]
  | .ok .notArray, .error e2 => simp
  | .ok .notArray, .ok .notArray => simp
  | .ok .notArray, .ok (.arr items2) =>
    simp only [respUsable, RespData.usable] at h2
    have : ¬ (items2.length > 0) := by simpa using h2
    simp [this]
  | .ok (.arr items), .error e2 =>
    simp only [respUsable, RespData.usable] at h1
    have : ¬ (items.length > 0) := by simpa using h1
    simp [this]
  | .ok (.arr items), .ok .notArray =>
    simp only [respUsable, RespData.usable] at h1
    have : ¬ (items.length > 0) := by simpa using h1
    simp [this]
  | .ok (.arr items), .ok (.arr items2) =>
    simp only [respUsable, RespData.usable] at h1 h2
    have hh1 : ¬ (items.length > 0) := by simpa using h1
    have hh2 : ¬ (items2.length > 0) := by simpa using h2
    simp [hh1, hh2]

/-- Witness for claim C9 at concrete inputs: with a populated slot for
other parameters and two failed attempts, the call returns the empty
fallback and the slot survives unchanged. -/
theorem claim_C9_cache_frame_witness :
    fetchPriceData (some "2025-03-02") none 1000000000 (.error "down")
      (.ok (.arr [])) ⟨some [], 900, ⟨some "2025-03-01", none⟩, 300000⟩ =
      ⟨generateSamplePriceData, ⟨some [], 900, ⟨some "2025-03-01", none⟩, 300000⟩, 2⟩ :=
  claim_C9_cache_frame (some "2025-03-02") none 1000000000 (.error "down")
    (.ok (.arr [])) ⟨some [], 900, ⟨some "2025-03-01", none⟩, 300000⟩
    (by decide) (by decide) (by decide)

/-- Claim C7: trade scheduling enforces its preconditions before any
request.  Whenever handleBuyOrder reaches executeTrade the entered
quantity is positive, the execution instant is at least 30 seconds past
the current time, and the parsed duration is 15, 30 or 60; handleSellOrder
additionally requires the quantity not to exceed the battery's stored
energy, level percentage times total capacity over 100.  When any check
fails the handlers return without a request (none). -/
theorem claim_C7_trade_guards :
    (∀ (q : Rat) (e n : Int) (d : String) (r : TradeRequestM),
      handleBuyOrder q e n d = some r →
      0 < q ∧ n + 30 * 1000 ≤ e ∧ jsParseInt d = some r.resolution ∧
        (r.resolution = 15 ∨ r.resolution = 30 ∨ r.resolution = 60) ∧
        r = ⟨"buy", q, e, r.resolution, "Germany"⟩) ∧
    (∀ (q lvl cap : Rat) (e n : Int) (d : String) (r : TradeRequestM),
      handleSellOrder q lvl cap e n d = some r →
      0 < q ∧ q ≤ lvl * cap / 100 ∧ n + 30 * 1000 ≤ e ∧
        jsParseInt d = some r.resolution ∧
        (r.resolution = 15 ∨ r.resolution = 30 ∨ r.resolution = 60) ∧
        r = ⟨"sell", q, e, r.resolution, "Germany"⟩) := by
  constructor
  · intro q e n d r h
    unfold handleBuyOrder at h
    simp only [Option.ite_none_left_eq_some] at h
    obtain ⟨hq, ht, h⟩ := h
    match hp : jsParseInt d with
    | none => rw [hp] at h; exact Option.noConfusion h
    | some res =>
      rw [hp] at h
      simp only [Option.ite_none_right_eq_some, Option.some.injEq] at h
      obtain ⟨hres, hr⟩ := h
      subst hr
      refine ⟨lt_of_not_le hq, le_of_not_lt ht, ?_, ?_, rfl⟩
      · simpa using hp
      · simpa using hres
  · intro q lvl cap e n d r h
    unfold handleSellOrder at h
    simp only [Option.ite_none_left_eq_some] at h
    obtain ⟨hq, hb, ht, h⟩ := h
    match hp : jsParseInt d with
    | none => rw [hp] at h; exact Option.noConfusion h
    | some res =>
      rw [hp] at h
      simp only [Option.ite_none_right_eq_some, Option.some.injEq] at h
      obtain ⟨hres, hr⟩ := h
      subst hr
      refine ⟨lt_of_not_le hq, le_of_not_lt hb, le_of_not_lt ht, ?_, ?_, rfl⟩
      · simpa using hp
      · simpa using hres

/-- Witness for claim C7 at concrete inputs: a buy of quantity 1 placed 31
seconds ahead with a 15-minute duration reaches executeTrade and
satisfies every precondition, as does a sell of quantity 1 against a
battery at 50 percent of a 4 MWh capacity. -/
theorem claim_C7_trade_guards_witness :
    (0 < (1 : Rat) ∧ (0 : Int) + 30 * 1000 ≤ 31000 ∧
      jsParseInt "15" = some ((⟨"buy", 1, 31000, 15, "Germany"⟩ : TradeRequestM)).resolution ∧
      ((⟨"buy", 1, 31000, 15, "Germany"⟩ : TradeRequestM).resolution = 15 ∨
        (⟨"buy", 1, 31000, 15, "Germany"⟩ : TradeRequestM).resolution = 30 ∨
        (⟨"buy", 1, 31000, 15, "Germany"⟩ : TradeRequestM).resolution = 60) ∧
      (⟨"buy", 1, 31000, 15, "Germany"⟩ : TradeRequestM) =
        ⟨"buy", 1, 31000, (⟨"buy", 1, 31000, 15, "Germany"⟩ : TradeRequestM).resolution,
          "Germany"⟩) ∧
    (0 < (1 : Rat) ∧ (1 : Rat) ≤ 50 * 4 / 100 ∧ (0 : Int) + 30 * 1000 ≤ 31000 ∧
      jsParseInt "60" = some ((⟨"sell", 1, 31000, 60, "Germany"⟩ : TradeRequestM)).resolution ∧
      ((⟨"sell", 1, 31000, 60, "Germany"⟩ : TradeRequestM).resolution = 15 ∨
        (⟨"sell", 1, 31000, 60, "Germany"⟩ : TradeRequestM).resolution = 30 ∨
        (⟨"sell", 1, 31000, 60, "Germany"⟩ : TradeRequestM).resolution = 60) ∧
      (⟨"sell", 1, 31000, 60, "Germany"⟩ : TradeRequestM) =
        ⟨"sell", 1, 31000, (⟨"sell", 1, 31000, 60, "Germany"⟩ : TradeRequestM).resolution,
          "Germany"⟩) := by
  constructor
  · refine claim_C7_trade_guards.1 1 31000 0 "15" ⟨"buy", 1, 31000, 15, "Germany"⟩ ?_
    unfold handleBuyOrder
    rw [show jsParseInt "15" = some 15 from by decide]
    norm_num
  · refine claim_C7_trade_guards.2 1 50 4 31000 0 "60" ⟨"sell", 1, 31000, 60, "Germany"⟩ ?_
    unfold handleSellOrder
    rw [show jsParseInt "60" = some 60 from by decide]
    norm_num

theorem decListVal_append_singleton (l : List Char) (c : Char) :
    decListVal (l ++ [c]) = 10 * decListVal l + digitVal c := by
  simp [decListVal, List.foldl_append]

theorem digitVal_digitChar (d : Nat) (hd : d < 10) :
    digitVal (Nat.digitChar d) = d := by
  interval_cases d <;> rfl

theorem digitChar_ne_dash (d : Nat) (hd : d < 10) : Nat.digitChar d ≠ '-' := by
  interval_cases d <;> decide

theorem toDigitsCore_eq_decDigits :
    ∀ (fuel n : Nat) (acc : List Char), n < 10 ^ fuel → 0 < fuel →
      Nat.toDigitsCore 10 fuel n acc = decDigits n ++ acc := by
  intro fuel
  induction fuel with
  | zero => intro n acc _ h0; omega
  | succ f ih =>
    intro n acc hn _
    by_cases hdiv : n / 10 = 0
    · have hlt : n < 10 := by omega
      rw [decDigits]
      simp [Nat.toDigitsCore, hdiv, hlt, Nat.mod_eq_of_lt hlt]
    · have hge : 10 ≤ n := by omega
      have hf : 0 < f := by
        by_contra hf0
        have : f = 0 := by omega
        subst this
        simp at hn
        omega
      have hdivlt : n / 10 < 10 ^ f := by
        rw [Nat.div_lt_iff_lt_mul (by omega : (0:Nat) < 10)]
        calc n < 10 ^ (f + 1) := hn
          _ = 10 ^ f * 10 := by rw [pow_succ]
      have hrec := ih (n / 10) (Nat.digitChar (n % 10) :: acc) hdivlt hf
      rw [decDigits]
      have hnot : ¬ n < 10 := by omega
      simp only [hnot, if_false]
      simp [Nat.toDigitsCore, hdiv, hrec]

theorem repr_eq_decDigits (n : Nat) : Nat.repr n = (decDigits n).asString := by
  have hlt : n < 10 ^ (n + 1) := by
    calc n < 10 ^ n := Nat.lt_pow_self (by omega) n
      _ ≤ 10 ^ (n + 1) := Nat.pow_le_pow_right (by omega) (by omega)
  show (Nat.toDigits 10 n).asString = (decDigits n).asString
  rw [Nat.toDigits, toDigitsCore_eq_decDigits (n + 1) n [] hlt (by omega)]
  simp

theorem decListVal_decDigits (n : Nat) : decListVal (decDigits n) = n := by
  induction n using Nat.strong_induction_on with
  | _ n ih =>
    rw [decDigits]
    by_cases h : n < 10
    · simp [h, decListVal, digitVal_digitChar n h]
    · simp only [h, if_false]
      rw [decListVal_append_singleton,
        ih (n / 10) (Nat.div_lt_self (by omega) (by omega)),
        digitVal_digitChar (n % 10) (Nat.mod_lt n (by omega))]
      omega

theorem decDigits_ne_dash (n : Nat) : ∀ c ∈ decDigits n, c ≠ '-' := by
  induction n using Nat.strong_induction_on with
  | _ n ih =>
    rw [decDigits]
    by_cases h : n < 10
    · simp only [h, if_true, List.mem_singleton]
      intro c hc
      subst hc
      exact digitChar_ne_dash n h
    · simp only [h, if_false]
      intro c hc
      rcases List.mem_append.mp hc with hc1 | hc2
      · exact ih (n / 10) (Nat.div_lt_self (by omega) (by omega)) c hc1
      · have : c = Nat.digitChar (n % 10) := by simpa using hc2
        subst this
        exact digitChar_ne_dash (n % 10) (Nat.mod_lt n (by omega))

theorem repr_data_eq (n : Nat) : (Nat.repr n).data = decDigits n := by
  rw [repr_eq_decDigits]
  rfl

theorem dash_suffix_cancel :
    ∀ (a b x y : List Char), (∀ c ∈ x, c ≠ '-') → (∀ c ∈ y, c ≠ '-') →
      a ++ '-' :: x = b ++ '-' :: y → x = y := by
  intro a
  induction a with
  | nil =>
    intro b x y hx hy h
    cases b with
    | nil => simpa using h
    | cons d b2 =>
      simp only [List.nil_append, List.cons_append, List.cons.injEq] at h
      obtain ⟨hd, h2⟩ := h
      exfalso
      exact hx '-' (by rw [h2]; exact List.mem_append_right _ (List.mem_cons_self _ _)) rfl
  | cons d a2 ih =>
    intro b x y hx hy h
    cases b with
    | nil =>
      simp only [List.cons_append, List.nil_append, List.cons.injEq] at h
      obtain ⟨hd, h2⟩ := h
      exfalso
      exact hy '-' (by rw [← h2]; exact List.mem_append_right _ (List.mem_cons_self _ _)) rfl
    | cons d2 b2 =>
      simp only [List.cons_append, List.cons.injEq] at h
      exact ih b2 x y hx hy h.2

/-- Distinctness of the ids fetchTradeHistory builds: whatever strings the
stems are, appending a dash and the decimal index keeps different indices
apart, because the digits after the final dash are exactly the index. -/
theorem id_append_index_injective (s t : String) (i j : Nat) (hij : i ≠ j) :
    s ++ "-" ++ Nat.repr i ≠ t ++ "-" ++ Nat.repr j := by
  intro h
  have hdata : (s ++ "-" ++ Nat.repr i).data = (t ++ "-" ++ Nat.repr j).data := by
    rw [h]
  rw [String.data_append, String.data_append, String.data_append, String.data_append]
    at hdata
  have hsplit : s.data ++ '-' :: (Nat.repr i).data = t.data ++ '-' :: (Nat.repr j).data := by
    simpa using hdata
  have hieq : (Nat.repr i).data = (Nat.repr j).data := by
    refine dash_suffix_cancel s.data t.data _ _ ?_ ?_ hsplit
    · rw [repr_data_eq]; exact decDigits_ne_dash i
    · rw [repr_data_eq]; exact decDigits_ne_dash j
  apply hij
  have : decDigits i = decDigits j := by
    rw [← repr_data_eq, ← repr_data_eq, hieq]
  calc i = decListVal (decDigits i) := (decListVal_decDigits i).symm
    _ = decListVal (decDigits j) := by rw [this]
    _ = j := decListVal_decDigits j

/-- Counterexample to claim C10 as stated: the row type SELL differs from
the string sell, yet fetchTradeHistory maps it to sell, not buy, because
the comparison happens after lowercasing. -/
theorem claim_C10_counterexample :
    (fetchTradeHistory "2025-01-01T00:00:00Z" (fun _ => "0.5")
      (.ok [{ Trade_Type := some "SELL" }])).map (fun t => t.type) = ["sell"] ∧
    ({ Trade_Type := some "SELL" } : RawTrade).Trade_Type ≠ some "sell" :=
  ⟨by decide, by decide⟩

/-- Claim C10 as amended: every trade returned by fetchTradeHistory has a
type equal to buy or sell; a row whose Trade_Type lowercases to anything
but sell — missing and empty included — maps to buy; and the ids, the
trade stem followed by a dash and the positional index, are pairwise
distinct within one result because the digits after each id's final dash
are the unique index. -/
theorem claim_C10_amended :
    (∀ (nowIso : String) (rnd : Nat → String) (resp : Except ApiError (List RawTrade)),
      ∀ t ∈ fetchTradeHistory nowIso rnd resp, t.type = "buy" ∨ t.type = "sell") ∧
    (∀ (nowIso : String) (rnd : Nat → String) (trades : List RawTrade) (i : Nat)
        (hi : i < trades.length)
        (hi2 : i < (fetchTradeHistory nowIso rnd (.ok trades)).length),
      (∀ s, (trades.get ⟨i, hi⟩).Trade_Type = some s → jsToLowerCase s ≠ "sell") →
      ((fetchTradeHistory nowIso rnd (.ok trades)).get ⟨i, hi2⟩).type = "buy") ∧
    (∀ (nowIso : String) (rnd : Nat → String) (trades : List RawTrade) (i j : Nat)
        (hi : i < (fetchTradeHistory nowIso rnd (.ok trades)).length)
        (hj : j < (fetchTradeHistory nowIso rnd (.ok trades)).length),
      i ≠ j →
      ((fetchTradeHistory nowIso rnd (.ok trades)).get ⟨i, hi⟩).id ≠
        ((fetchTradeHistory nowIso rnd (.ok trades)).get ⟨j, hj⟩).id) := by
  refine ⟨?_, ?_, ?_⟩
  · intro nowIso rnd resp t ht
    match resp with
    | .error e => simp [fetchTradeHistory] at ht
    | .ok trades =>
      simp only [fetchTradeHistory] at ht
      rw [List.mem_iff_get] at ht
      obtain ⟨⟨i, hi⟩, rfl⟩ := ht
      simp only [List.get_eq_getElem, List.getElem_mapIdx]
      simp only [mapTrade]
      have hilt : i < trades.length := by simpa using hi
      by_cases h : (match (trades.get ⟨i, hilt⟩).Trade_Type with
        | some s => if jsToLowerCase s = "" then "buy" else jsToLowerCase s
        | none => "buy") = "sell"
      · right
        rw [List.get_eq_getElem] at h
        simp [h]
      · left
        rw [List.get_eq_getElem] at h
        simp [h]
  · intro nowIso rnd trades i hi hi2 hty
    simp only [fetchTradeHistory, List.get_eq_getElem, List.getElem_mapIdx]
    simp only [mapTrade]
    match hT : (trades.get ⟨i, hi⟩).Trade_Type with
    | none => simp
    | some s =>
      have hs : jsToLowerCase s ≠ "sell" := by
        apply hty
        simpa using hT
      by_cases hempty : jsToLowerCase s = ""
      · simp [hempty]
      · simp [hempty, hs]
  · intro nowIso rnd trades i j hi hj hij
    simp only [fetchTradeHistory, List.get_eq_getElem, List.getElem_mapIdx] at *
    simp only [mapTrade]
    exact id_append_index_injective _ _ i j hij

/-- Witness for claim C10 as amended at a concrete two-row response: the
first row, typed BUY, maps to buy, and the two ids are distinct. -/
theorem claim_C10_amended_witness :
    ((fetchTradeHistory "t0" (fun _ => "0.5")
        (.ok [{ Trade_Type := some "BUY" }, { Trade_ID := some 9 }])).get
      ⟨0, by decide⟩).type = "buy" ∧
    ((fetchTradeHistory "t0" (fun _ => "0.5")
        (.ok [{ Trade_Type := some "BUY" }, { Trade_ID := some 9 }])).get
      ⟨0, by decide⟩).id ≠
      ((fetchTradeHistory "t0" (fun _ => "0.5")
        (.ok [{ Trade_Type := some "BUY" }, { Trade_ID := some 9 }])).get
      ⟨1, by decide⟩).id :=
  ⟨claim_C10_amended.2.1 "t0" (fun _ => "0.5")
      [{ Trade_Type := some "BUY" }, { Trade_ID := some 9 }] 0 (by decide) (by decide)
      (fun s hs => by
        have h2 : "BUY" = s := by simpa using hs
        subst h2
        decide),
   claim_C10_amended.2.2 "t0" (fun _ => "0.5")
      [{ Trade_Type := some "BUY" }, { Trade_ID := some 9 }] 0 1 (by decide) (by decide)
      (by decide)⟩

theorem splitOnCharList_ne_nil (sep : Char) (l : List Char) :
    splitOnCharList sep l ≠ [] := by
  cases l with
  | nil => simp [splitOnCharList]
  | cons c cs =>
    simp only [splitOnCharList]
    by_cases h : c = sep <;> simp [h]

theorem splitOnCharList_length (sep : Char) (l : List Char) :
    (splitOnCharList sep l).length = l.count sep + 1 := by
  induction l with
  | nil => rfl
  | cons c cs ih =>
    simp only [splitOnCharList]
    by_cases h : c = sep
    · simp [h, List.count_cons, ih]
    · have hne := splitOnCharList_ne_nil sep cs
      simp only [h, if_false, List.length_cons]
      rw [List.length_tail]
      have hpos : 0 < (splitOnCharList sep cs).length := List.length_pos.mpr hne
      simp [List.count_cons, h, ← ih]
      omega

/-- Correspondence between the dash test of the amended claim and the
fragment-count test of the source: a string splits into more than one
dash fragment exactly when it contains a dash. -/
theorem jsSplit_length_gt_one_iff (sep : Char) (s : String) :
    (jsSplit sep s).length > 1 ↔ jsIncludes s sep = true := by
  rw [jsSplit, List.length_map, splitOnCharList_length, jsIncludes]
  rw [List.contains_iff_exists_mem_beq]
  constructor
  · intro h
    have : 0 < s.data.count sep := by omega
    have hmem : sep ∈ s.data := List.count_pos_iff_mem.mp this
    exact ⟨sep, hmem, by simp⟩
  · intro ⟨a, ha, hbeq⟩
    have hsa : sep = a := by simpa using hbeq
    subst hsa
    have : 0 < s.data.count sep := List.count_pos_iff_mem.mpr ha
    omega

/-- Counterexample to claim C4 as stated: a Delivery_Period holding the
dash-formatted datetime 2025-03-10 15:00:00 is split at its dashes, so
the retained element's time field is the year 2025 — not in zero-padded
HH:MM form, and not the part after the space. -/
theorem claim_C4_counterexample :
    (processApiResponse [{ Delivery_Period := some "2025-03-10 15:00:00" }]).map
        (fun p => p.time) = ["2025"] ∧
    isHHMM "2025" = false ∧ ("2025" : String) ≠ "15:00" :=
  ⟨by decide, by decide, by decide⟩

/-- Claim C4 as amended: each retained element's time field comes from its
truthy Delivery_Period — the trimmed part before the first dash whenever
the Delivery_Period contains a dash (even a dash-formatted datetime,
whose year is taken), otherwise the part after the first space, falling
back to the whole string — else its truthy time field, else the
zero-padded hour and minute of its timestamp, normalized to zero-padded
HH:MM only when it contains a colon; each numeric price field is
parseNumericValue of the first truthy (not merely present) of the
Capitalized, snake_case and camelCase source fields; items with no truthy
time source are dropped; and when no item survives, the sample-data
fallback — the empty array — is returned. -/
theorem claim_C4_amended :
    (∀ (item : RawItem) (dp : String), item.Delivery_Period = some dp → dp ≠ "" →
      jsIncludes dp '-' = true →
      (processItem item).map (fun p => p.time) =
        some (normalizeTimeStr (jsTrim ((jsSplit '-' dp).headD "")))) ∧
    (∀ (item : RawItem) (dp : String), item.Delivery_Period = some dp → dp ≠ "" →
      jsIncludes dp '-' = false →
      (processItem item).map (fun p => p.time) =
        some (normalizeTimeStr
          (if (jsSplit ' ' dp).getD 1 "" = "" then dp else (jsSplit ' ' dp).getD 1 ""))) ∧
    (∀ (item : RawItem) (t : String),
      (item.Delivery_Period = none ∨ item.Delivery_Period = some "") →
      item.time = some t → t ≠ "" →
      (processItem item).map (fun p => p.time) = some (normalizeTimeStr t)) ∧
    (∀ (item : RawItem) (ts : HMTime),
      (item.Delivery_Period = none ∨ item.Delivery_Period = some "") →
      (item.time = none ∨ item.time = some "") → item.timestamp = some ts →
      (processItem item).map (fun p => p.time) =
        some (normalizeTimeStr (jsPadStart (Nat.repr ts.hours) 2 '0' ++ ":" ++
          jsPadStart (Nat.repr ts.minutes) 2 '0'))) ∧
    (∀ item : RawItem,
      (item.Delivery_Period = none ∨ item.Delivery_Period = some "") →
      (item.time = none ∨ item.time = some "") → item.timestamp = none →
      processItem item = none) ∧
    (∀ (item : RawItem) (p : ProcessedPoint), processItem item = some p →
      p.clearedHighPrice =
        parseNumericValue (jsOr item.High_Price (jsOr item.high_price item.clearedHighPrice)) ∧
      p.clearedLowPrice =
        parseNumericValue (jsOr item.Low_Price (jsOr item.low_price item.clearedLowPrice)) ∧
      p.forecastedHighNordpool =
        parseNumericValue (jsOr item.Forecasted_High
          (jsOr item.forecasted_high item.forecastedHighNordpool)) ∧
      p.forecastedLowNordpool =
        parseNumericValue (jsOr item.Forecasted_Low
          (jsOr item.forecasted_low item.forecastedLowNordpool)) ∧
      p.lumaraxHighForecast =
        parseNumericValue (jsOr item.Lumarax_High_Forecast
          (jsOr item.lumarax_high_forecast item.lumaraxHighForecast)) ∧
      p.lumaraxLowForecast =
        parseNumericValue (jsOr item.Lumarax_Low_Forecast
          (jsOr item.lumarax_low_forecast item.lumaraxLowForecast))) ∧
    (∀ data : List RawItem, data.filterMap processItem = [] →
      processApiResponse data = generateSamplePriceData ∧ processApiResponse data = []) ∧
    (∀ data : List RawItem, data.filterMap processItem ≠ [] →
      processApiResponse data = data.filterMap processItem) := by
  refine ⟨?_, ?_, ?_, ?_, ?_, ?_, ?_, ?_⟩
  · intro item dp hdp hne hdash
    have hlen : (jsSplit '-' dp).length > 1 := (jsSplit_length_gt_one_iff '-' dp).mpr hdash
    simp [processItem, rawTimeStr, hdp, hne, timeFromDeliveryPeriod, hlen]
  · intro item dp hdp hne hdash
    have hlen : ¬ ((jsSplit '-' dp).length > 1) := by
      rw [jsSplit_length_gt_one_iff '-' dp, hdash]
      simp
    simp only [processItem, rawTimeStr, hdp, hne, ne_eq, not_false_iff, if_true,
      Option.map_some, Option.some.injEq, timeFromDeliveryPeriod, hlen, if_false]
    by_cases hsp : (jsSplit ' ' dp).getD 1 "" = "" <;> simp [hsp]
  · intro item t hdp ht htne
    rcases hdp with h | h <;>
      simp [processItem, rawTimeStr, h, ht, htne]
  · intro item ts hdp ht hts
    rcases hdp with h | h <;> rcases ht with h2 | h2 <;>
      simp [processItem, rawTimeStr, h, h2, hts]
  · intro item hdp ht hts
    rcases hdp with h | h <;> rcases ht with h2 | h2 <;>
      simp [processItem, rawTimeStr, h, h2, hts]
  · intro item p hp
    rw [processItem, Option.map_eq_some'] at hp
    obtain ⟨timeStr, hts, rfl⟩ := hp
    exact ⟨rfl, rfl, rfl, rfl, rfl, rfl⟩
  · intro data h
    simp [processApiResponse, h, generateSamplePriceData]
  · intro data h
    have : ¬ ((data.filterMap processItem).length = 0) := by
      simpa [List.length_eq_zero] using h
    simp [processApiResponse, this]

/-- Witness for claim C4 as amended at concrete items: a range-form
Delivery_Period yields its padded start time, and an item with only a
timestamp yields that timestamp's padded hour and minute. -/
theorem claim_C4_amended_witness :
    (processItem { Delivery_Period := some "15:00-15:15" }).map (fun p => p.time) =
      some (normalizeTimeStr (jsTrim ((jsSplit '-' "15:00-15:15").headD ""))) ∧
    (processItem { timestamp := some ⟨9, 5⟩ }).map (fun p => p.time) =
      some (normalizeTimeStr (jsPadStart (Nat.repr 9) 2 '0' ++ ":" ++
        jsPadStart (Nat.repr 5) 2 '0')) :=
  ⟨claim_C4_amended.1 { Delivery_Period := some "15:00-15:15" } "15:00-15:15" rfl
      (by decide) (by decide),
   claim_C4_amended.2.2.2.1 { timestamp := some ⟨9, 5⟩ } ⟨9, 5⟩ (Or.inl rfl)
      (Or.inl rfl) rfl⟩

theorem char_isDigit_toNat {c : Char} (hc : c.isDigit = true) :
    48 ≤ c.toNat ∧ c.toNat ≤ 57 := by
  simp [Char.isDigit] at hc
  obtain ⟨h1, h2⟩ := hc
  constructor
  · exact h1
  · exact h2

theorem digit_ne_colon {c : Char} (hc : c.isDigit = true) : ¬ (c = ':') := by
  intro h
  subst h
  simp [Char.isDigit] at hc

theorem digitVal_le_nine {c : Char} (hc : c.isDigit = true) : digitVal c ≤ 9 := by
  have := char_isDigit_toNat hc
  unfold digitVal
  omega

theorem char_lt_digitVal {c d : Char} (hc : c.isDigit = true) (hd : d.isDigit = true)
    (h : c < d) : digitVal c < digitVal d := by
  have hc2 := char_isDigit_toNat hc
  have hd2 := char_isDigit_toNat hd
  rw [Char.lt_iff_val_lt_val] at h
  have : c.toNat < d.toNat := h
  unfold digitVal
  omega

/-- Structure of a well-formed HH:MM string: its five characters, their
digit facts, and the values its parse produces. -/
theorem isHHMM_parse {s : String} (h : isHHMM s = true) :
    ∃ h1 h2 m1 m2 : Char, s.data = [h1, h2, ':', m1, m2] ∧
      h1.isDigit = true ∧ h2.isDigit = true ∧ m1.isDigit = true ∧ m2.isDigit = true ∧
      10 * digitVal m1 + digitVal m2 < 60 ∧
      parseHM s = some (10 * digitVal h1 + digitVal h2, 10 * digitVal m1 + digitVal m2) := by
  unfold isHHMM at h
  match hdata : s.data with
  | [] | [_] | [_, _] | [_, _, _] | [_, _, _, _] => rw [hdata] at h; simp at h
  | a1 :: a2 :: c :: a3 :: a4 :: rest =>
    rw [hdata] at h
    match rest with
    | _ :: _ => simp at h
    | [] =>
      simp only [Bool.and_eq_true, decide_eq_true_eq] at h
      obtain ⟨⟨⟨⟨⟨hd1, hd2⟩, hc⟩, hd3⟩, hd4⟩, hlt⟩ := h
      subst hc
      refine ⟨a1, a2, a3, a4, rfl, hd1, hd2, hd3, hd4, hlt, ?_⟩
      unfold parseHM
      rw [hdata]
      have e1 : ¬ (a1 = ':') := digit_ne_colon hd1
      have e2 : ¬ (a2 = ':') := digit_ne_colon hd2
      have e3 : ¬ (a3 = ':') := digit_ne_colon hd3
      have e4 : ¬ (a4 = ':') := digit_ne_colon hd4
      simp only [splitOnCharList, e1, e2, e3, e4, if_false, if_true, List.headD,
        List.tail]
      simp [jsNumDigits, hd1, hd2, hd3, hd4, digitVal]

/-- Lexicographic order on zero-padded HH:MM strings agrees with the order
of their minute values. -/
theorem hmMinutes_lt_of_lt {a b : String} (ha : isHHMM a = true) (hb : isHHMM b = true)
    (h : a < b) : hmMinutes a < hmMinutes b := by
  obtain ⟨a1, a2, a3, a4, hda, hda1, hda2, hda3, hda4, hlta, hpa⟩ := isHHMM_parse ha
  obtain ⟨b1, b2, b3, b4, hdb, hdb1, hdb2, hdb3, hdb4, hltb, hpb⟩ := isHHMM_parse hb
  replace h := String.lt_iff_toList_lt.mp h
  replace h : List.Lex (fun c d : Char => c < d) a.data b.data := h
  rw [hda, hdb] at h
  unfold hmMinutes
  rw [hpa, hpb]
  simp only
  have ba2 := digitVal_le_nine hda2
  have ba4 := digitVal_le_nine hda4
  have bb2 := digitVal_le_nine hdb2
  have bb4 := digitVal_le_nine hdb4
  cases h with
  | rel h1 =>
    have := char_lt_digitVal hda1 hdb1 h1
    omega
  | cons h =>
    cases h with
    | rel h2 =>
      have := char_lt_digitVal hda2 hdb2 h2
      omega
    | cons h =>
      cases h with
      | rel h3 => exact absurd h3 (lt_irrefl ':')
      | cons h =>
        cases h with
        | rel h4 =>
          have := char_lt_digitVal hda3 hdb3 h4
          omega
        | cons h =>
          cases h with
          | rel h5 =>
            have := char_lt_digitVal hda4 hdb4 h5
            omega
          | cons h => cases h

/-- Decimal-hour value of a well-formed HH:MM string: its minute value
divided by sixty. -/
theorem decHM_eq_minutes {s : String} (h : isHHMM s = true) :
    decHM s = (hmMinutes s : Rat) / 60 := by
  obtain ⟨h1, h2, m1, m2, _, _, _, _, _, _, hp⟩ := isHHMM_parse h
  unfold decHM hmMinutes
  rw [hp]
  simp only [decOfHM]
  push_cast
  ring

theorem decHM_lt_of_minutes_lt {a b : String} (ha : isHHMM a = true)
    (hb : isHHMM b = true) (h : hmMinutes a < hmMinutes b) : decHM a < decHM b := by
  rw [decHM_eq_minutes ha, decHM_eq_minutes hb]
  apply div_lt_div_of_pos_right ?_ (by norm_num)
  exact_mod_cast h

theorem decHM_le_of_minutes_le {a b : String} (ha : isHHMM a = true)
    (hb : isHHMM b = true) (h : hmMinutes a ≤ hmMinutes b) : decHM a ≤ decHM b := by
  rw [decHM_eq_minutes ha, decHM_eq_minutes hb]
  apply div_le_div_of_nonneg_right ?_ (by norm_num)
  exact_mod_cast h

theorem mem_jsSetDedup {α : Type} [DecidableEq α] (l : List α) (a : α) :
    a ∈ jsSetDedup l ↔ a ∈ l := by
  induction l with
  | nil => simp [jsSetDedup]
  | cons x xs ih =>
    simp only [jsSetDedup, List.mem_cons, List.mem_filter, ih]
    by_cases h : a = x
    · simp [h]
    · simp [h]

theorem nodup_jsSetDedup {α : Type} [DecidableEq α] (l : List α) :
    (jsSetDedup l).Nodup := by
  induction l with
  | nil => simp [jsSetDedup]
  | cons x xs ih =>
    simp only [jsSetDedup]
    refine List.Nodup.cons ?_ (ih.filter _)
    intro hmem
    have := (List.mem_filter.mp hmem).2
    simp at this

theorem mem_sortedUnique (l : List String) (a : String) :
    a ∈ sortedUnique l ↔ a ∈ l := by
  rw [sortedUnique, (List.mergeSort_perm (jsSetDedup l) _).mem_iff, mem_jsSetDedup]

theorem nodup_sortedUnique (l : List String) : (sortedUnique l).Nodup :=
  ((List.mergeSort_perm (jsSetDedup l) _).symm).nodup (nodup_jsSetDedup l)

theorem length_sortedUnique (l : List String) :
    (sortedUnique l).length = (jsSetDedup l).length :=
  (List.mergeSort_perm (jsSetDedup l) _).length_eq

theorem pairwise_le_sortedUnique (l : List String) :
    (sortedUnique l).Pairwise (fun a b => a ≤ b) := by
  have h := @List.sorted_mergeSort String (fun a b : String => decide (a ≤ b))
    (fun a b c hab hbc => by
      simp only [decide_eq_true_eq] at *
      exact le_trans hab hbc)
    (fun a b => by
      simp only [Bool.or_eq_true, decide_eq_true_eq]
      exact le_total a b)
    (jsSetDedup l)
  refine h.imp ?_
  intro a b hab
  simpa using hab

theorem pairwise_lt_sortedUnique (l : List String) :
    (sortedUnique l).Pairwise (fun a b => a < b) := by
  have h1 := pairwise_le_sortedUnique l
  have h2 : (sortedUnique l).Pairwise (fun a b => a ≠ b) := nodup_sortedUnique l
  refine (h1.and h2).imp ?_
  intro a b ⟨hle, hne⟩
  exact lt_of_le_of_ne hle hne

/-- Pairwise strictly increasing decimal values along the sorted unique
times of a well-formed data list. -/
theorem pairwise_dec_sortedUnique (l : List String)
    (hall : ∀ s ∈ l, isHHMM s = true) :
    (sortedUnique l).Pairwise (fun a b => decHM a < decHM b) := by
  have hmem : ∀ s ∈ sortedUnique l, isHHMM s = true := by
    intro s hs
    exact hall s ((mem_sortedUnique l s).mp hs)
  refine List.Pairwise.imp_of_mem ?_ (pairwise_lt_sortedUnique l)
  intro a b ha hb hab
  exact decHM_lt_of_minutes_lt (hmem a ha) (hmem b hb)
    (hmMinutes_lt_of_lt (hmem a ha) (hmem b hb) hab)

theorem mapDecimals_eq (l : List String) (h : ∀ t ∈ l, (parseHM t).isSome = true) :
    mapDecimals l = some (l.map fun t => (t, decHM t)) := by
  induction l with
  | nil => rfl
  | cons t ts ih =>
    have ht := h t (List.mem_cons_self t ts)
    match hp : parseHM t with
    | none => rw [hp] at ht; simp at ht
    | some p =>
      simp only [mapDecimals, hp, ih (fun x hx => h x (List.mem_cons_of_mem t hx))]
      simp [decHM, hp]

/-- Behaviour of the enclosing-ticks scan on a strictly increasing tick
list whose extremes enclose the target: it stops at the first adjacent
pair around the target, every earlier upper tick lying strictly below the
target. -/
theorem scanTicks_spec (dflt : String × Rat) :
    ∀ (l : List (String × Rat)) (t : Rat), 2 ≤ l.length →
      l.Pairwise (fun a b => a.2 < b.2) →
      (l.headD dflt).2 ≤ t → t ≤ (l.getD (l.length - 1) dflt).2 →
      ∃ i, i + 1 < l.length ∧
        scanTicks l t = some (l.getD i dflt, l.getD (i + 1) dflt) ∧
        (l.getD i dflt).2 ≤ t ∧ t ≤ (l.getD (i + 1) dflt).2 ∧
        ∀ k, k < i → (l.getD (k + 1) dflt).2 < t := by
  intro l
  induction l with
  | nil => intro t hlen; simp at hlen
  | cons x xs ih =>
    intro t hlen hpw hhead hlast
    match xs, ih with
    | [], _ => simp at hlen
    | y :: rest, ih =>
      by_cases hc : x.2 ≤ t ∧ t ≤ y.2
      · refine ⟨0, by simp, ?_, ?_, ?_, by omega⟩
        · simp [scanTicks, hc]
        · simpa using hc.1
        · simpa using hc.2
      · have hxt : x.2 ≤ t := by simpa using hhead
        have hy : y.2 < t := by
          rcases not_and_or.mp hc with h1 | h2
          · exact absurd hxt h1
          · exact lt_of_not_le h2
        match rest with
        | [] =>
          exfalso
          have : t ≤ y.2 := by simpa using hlast
          exact absurd this (not_le.mpr hy)
        | z :: rest2 =>
          have hlast2 : t ≤ ((y :: z :: rest2).getD ((y :: z :: rest2).length - 1) dflt).2 := by
            have harith : (x :: y :: z :: rest2).length - 1 =
                ((y :: z :: rest2).length - 1) + 1 := by
              simp
            rw [harith, List.getD_cons_succ] at hlast
            exact hlast
          have ih2 := ih t (by simp) hpw.of_cons (by simpa using hy.le) hlast2
          obtain ⟨i, hi, hscan, hle, hge, hleast⟩ := ih2
          refine ⟨i + 1, ?_, ?_, ?_, ?_, ?_⟩
          · simp only [List.length_cons]
            simp only [List.length_cons] at hi
            omega
          · have hstep : scanTicks (x :: y :: z :: rest2) t = scanTicks (y :: z :: rest2) t := by
              simp [scanTicks, hc]
            have e1 : (x :: y :: z :: rest2).getD (i + 1) dflt =
                (y :: z :: rest2).getD i dflt := rfl
            have e2 : (x :: y :: z :: rest2).getD (i + 1 + 1) dflt =
                (y :: z :: rest2).getD (i + 1) dflt := rfl
            rw [hstep, e1, e2, hscan]
          · rw [List.getD_cons_succ]
            exact hle
          · rw [List.getD_cons_succ]
            exact hge
          · intro k hk
            match k with
            | 0 => simpa using hy
            | k2 + 1 =>
              rw [List.getD_cons_succ]
              exact hleast k2 (by omega)

theorem getD_mono_of_pairwise {l : List Rat} (h : l.Pairwise (fun a b => a < b)) :
    ∀ i j, i < j → j < l.length → l.getD i 0 < l.getD j 0 := by
  intro i j hij hj
  rw [List.getD_eq_getElem _ _ (by omega), List.getD_eq_getElem _ _ hj]
  exact List.pairwise_iff_getElem.mp h i j (by omega) hj hij

theorem length_takeWhile_eq {p : Rat → Bool} :
    ∀ (l : List Rat) (n : Nat), n ≤ l.length →
      (∀ k, k < n → p (l.getD k 0) = true) →
      (n = l.length ∨ p (l.getD n 0) = false) →
      (l.takeWhile p).length = n := by
  intro l
  induction l with
  | nil =>
    intro n hn _ _
    simp at hn
    simp [hn]
  | cons x xs ih =>
    intro n hn hall hstop
    match n with
    | 0 =>
      rcases hstop with h | h
      · simp at h
      · have hx : p x = false := by simpa using h
        simp [List.takeWhile_cons, hx]
    | m + 1 =>
      have hx : p x = true := by simpa using hall 0 (by omega)
      have hrec := ih m (by simpa using hn)
        (fun k hk => by simpa using hall (k + 1) (by omega))
        (by
          rcases hstop with h | h
          · left
            simpa using h
          · right
            simpa using h)
      simp [List.takeWhile_cons, hx, hrec]

/-- Claim C5: chart-coordinate interpolation.  For data whose times are
all zero-padded HH:MM with at least two distinct values and a target time
between the smallest and largest, calculateTimePosition returns exactly
beforeIndex * 100 / (n - 1) + fraction * 100 / (n - 1), where n is the
number of distinct times, beforeIndex the index of the nearest tick at or
below the target, and fraction the target's linear position between the
two surrounding ticks — a value between 0 and 100.  An empty data list
makes the source throw and land in the catch with the fallback value 50,
the second conjunct. -/
theorem claim_C5_time_position :
    (∀ (timeStr : String) (dataTimes : List String),
      (∀ s ∈ dataTimes, isHHMM s = true) →
      isHHMM timeStr = true →
      2 ≤ (jsSetDedup dataTimes).length →
      (∃ s ∈ dataTimes, hmMinutes s ≤ hmMinutes timeStr) →
      (∃ s ∈ dataTimes, hmMinutes timeStr ≤ hmMinutes s) →
      ∃ r, calculateTimePosition timeStr dataTimes = some r ∧
        r = claimPosition ((sortedUnique dataTimes).map decHM) (decHM timeStr) ∧
        0 ≤ r ∧ r ≤ 100) ∧
    (∀ (timeStr : String) (tp : Nat × Nat), parseHM timeStr = some tp →
      calculateTimePosition timeStr [] = some 50) := by
  constructor
  swap
  · intro timeStr tp hp
    simp [calculateTimePosition, hp, jsSetDedup, mapDecimals]
  intro timeStr dataTimes hall htarget hcard hlo hhi
  classical
  obtain ⟨c1, c2, c3, c4, _, _, _, _, _, _, hptarget⟩ := isHHMM_parse htarget
  set u := sortedUnique dataTimes with hu
  set decs := u.map decHM with hdecs
  set t := decHM timeStr with ht
  have htt : decOfHM (10 * digitVal c1 + digitVal c2, 10 * digitVal c3 + digitVal c4) = t := by
    rw [ht]
    unfold decHM
    rw [hptarget]
  have hallu : ∀ s ∈ u, isHHMM s = true := fun s hs =>
    hall s ((mem_sortedUnique _ s).mp (hu ▸ hs))
  have hlenu : 2 ≤ u.length := by
    rw [hu, length_sortedUnique]
    exact hcard
  have hdecpw : u.Pairwise (fun a b => decHM a < decHM b) := by
    rw [hu]
    exact pairwise_dec_sortedUnique _ hall
  have hdecspw : decs.Pairwise (fun a b => a < b) := by
    rw [hdecs]
    exact List.pairwise_map.mpr hdecpw
  have hn : decs.length = u.length := by
    rw [hdecs]
    simp
  have hmono := getD_mono_of_pairwise hdecspw
  have hparseu : ∀ s ∈ u, (parseHM s).isSome = true := by
    intro s hs
    obtain ⟨_, _, _, _, _, _, _, _, _, _, hp⟩ := isHHMM_parse (hallu s hs)
    rw [hp]
    rfl
  have hmap : mapDecimals u = some (u.map fun s => (s, decHM s)) := mapDecimals_eq u hparseu
  set pairs0 : List (String × Rat) := u.map (fun s => (s, decHM s)) with hpairs0
  have hplen : pairs0.length = u.length := by
    rw [hpairs0]
    simp
  have hsorted2 : pairs0.Pairwise (fun a b => decide (a.2 ≤ b.2) = true) := by
    rw [hpairs0]
    refine List.pairwise_map.mpr ?_
    exact hdecpw.imp (fun hab => by simpa using le_of_lt hab)
  have hmerge2 : pairs0.mergeSort (fun a b => a.2 ≤ b.2) = pairs0 :=
    List.mergeSort_of_sorted hsorted2
  have hempty : pairs0.isEmpty = false := by
    match hp2 : pairs0 with
    | [] =>
      rw [hp2] at hplen
      simp at hplen
      omega
    | _ :: _ => rfl
  have hpair_fst : ∀ k, k < u.length → (pairs0.getD k ("", 0)).1 = u.getD k "" := by
    intro k hk
    rw [hpairs0, List.getD_eq_getElem _ _ (by simpa using hk),
      List.getD_eq_getElem _ _ hk, List.getElem_map]
  have hpair_snd : ∀ k, k < u.length → (pairs0.getD k ("", 0)).2 = decs.getD k 0 := by
    intro k hk
    rw [hpairs0, hdecs, List.getD_eq_getElem _ _ (by simpa using hk),
      List.getD_eq_getElem _ _ (by simpa using hk), List.getElem_map, List.getElem_map]
  have hlo2 : decs.getD 0 0 ≤ t := by
    obtain ⟨s, hsmem, hsle⟩ := hlo
    have hsu : s ∈ u := by
      rw [hu]
      exact (mem_sortedUnique dataTimes s).mpr hsmem
    obtain ⟨k, hk, hks⟩ := List.mem_iff_getElem.mp hsu
    have h1 : decs.getD k 0 = decHM s := by
      rw [hdecs, List.getD_eq_getElem _ _ (by simpa using hk), List.getElem_map, hks]
    have h2 : decHM s ≤ t := by
      rw [ht]
      exact decHM_le_of_minutes_le (hallu s hsu) htarget hsle
    by_cases hk0 : k = 0
    · rw [← hk0, h1]
      exact h2
    · have := hmono 0 k (by omega) (by rw [hn]; exact hk)
      linarith [h1 ▸ this]
  have hhi2 : t ≤ decs.getD (u.length - 1) 0 := by
    obtain ⟨s, hsmem, hsle⟩ := hhi
    have hsu : s ∈ u := by
      rw [hu]
      exact (mem_sortedUnique dataTimes s).mpr hsmem
    obtain ⟨k, hk, hks⟩ := List.mem_iff_getElem.mp hsu
    have h1 : decs.getD k 0 = decHM s := by
      rw [hdecs, List.getD_eq_getElem _ _ (by simpa using hk), List.getElem_map, hks]
    have h2 : t ≤ decHM s := by
      rw [ht]
      exact decHM_le_of_minutes_le htarget (hallu s hsu) hsle
    by_cases hklast : k = u.length - 1
    · rw [← hklast, h1]
      exact h2
    · have := hmono k (u.length - 1) (by omega) (by omega)
      linarith [h1 ▸ this]
  have hscan := scanTicks_spec ("", 0) pairs0 t (by rw [hplen]; exact hlenu)
    (by
      rw [hpairs0]
      exact List.pairwise_map.mpr hdecpw)
    (by
      have hh : pairs0.headD ("", 0) = pairs0.getD 0 ("", 0) := by
        cases pairs0 <;> rfl
      rw [hh, hpair_snd 0 (by omega)]
      exact hlo2)
    (by
      rw [hplen, hpair_snd (u.length - 1) (by omega)]
      exact hhi2)
  obtain ⟨i, hilen, hscaneq, hile, hige, hleast⟩ := hscan
  rw [hplen] at hilen
  have hdle : decs.getD i 0 ≤ t := by
    rw [← hpair_snd i (by omega)]
    exact hile
  have hdge : t ≤ decs.getD (i + 1) 0 := by
    rw [← hpair_snd (i + 1) (by omega)]
    exact hige
  have hadj : decs.getD i 0 < decs.getD (i + 1) 0 :=
    hmono i (i + 1) (by omega) (by rw [hn]; omega)
  set seg : Rat := 100 / ((u.length - 1 : Nat) : Rat) with hseg
  set frac : Rat := (t - decs.getD i 0) / (decs.getD (i + 1) 0 - decs.getD i 0) with hfrac
  have hsegpos : 0 < seg := by
    rw [hseg]
    apply div_pos (by norm_num)
    have : 1 ≤ u.length - 1 := by omega
    exact_mod_cast Nat.lt_of_lt_of_le Nat.zero_lt_one this
  have hidx : u.indexOf (u.getD i "") = i := by
    have hnod : u.Nodup := by
      rw [hu]
      exact nodup_sortedUnique dataTimes
    rw [List.getD_eq_getElem _ _ (by omega)]
    have := List.get_indexOf hnod ⟨i, by omega⟩
    simpa using this
  have h1 : (jsSetDedup dataTimes).mergeSort (fun a b => a ≤ b) = u := by
    rw [hu]
    rfl
  refine ⟨(i : Rat) * seg + frac * seg, ?_, ?_, ?_, ?_⟩
  · simp only [calculateTimePosition, hptarget, h1, hmap, hmerge2, hempty,
      Bool.false_eq_true, if_false, htt, hscaneq, Option.getD_some]
    have htp0 : ¬ (u.length - 1 = 0) := by omega
    simp only [htp0, if_false]
    rw [hpair_fst i (by omega), hpair_snd i (by omega), hpair_snd (i + 1) (by omega),
      hidx]
    have hrange : decs.getD (i + 1) 0 - decs.getD i 0 > 0 := by linarith
    rw [if_pos hrange]
  · simp only [claimPosition, nearestBelowIndex]
    have hcastlen : ((u.length - 1 : Nat) : Rat) = ((decs.length : Nat) : Rat) - 1 := by
      rw [hn]
      have : (1 : Nat) ≤ u.length := by omega
      push_cast [Nat.cast_sub this]
      ring
    by_cases hcase : t < decs.getD (i + 1) 0
    · have hTW : (decs.takeWhile fun d => decide (d ≤ t)).length = i + 1 := by
        apply length_takeWhile_eq decs (i + 1) (by omega)
        · intro k hk
          by_cases hki : k = i
          · subst hki
            simpa using hdle
          · have := hmono k i (by omega) (by omega)
            simp only [decide_eq_true_eq]
            linarith
        · right
          simp only [decide_eq_false_iff_not, not_le]
          exact hcase
      rw [hTW]
      have hj : i + 1 - 1 = i := by omega
      rw [hj]
      have hcond : i + 1 < decs.length := by omega
      rw [if_pos hcond, hseg, hfrac, hcastlen]
    · have hteq : t = decs.getD (i + 1) 0 := le_antisymm hdge (not_lt.mp hcase)
      have hTW : (decs.takeWhile fun d => decide (d ≤ t)).length = i + 2 := by
        apply length_takeWhile_eq decs (i + 2) (by omega)
        · intro k hk
          simp only [decide_eq_true_eq]
          by_cases hki1 : k = i + 1
          · subst hki1
            linarith
          · by_cases hki : k = i
            · subst hki
              exact hdle
            · have := hmono k i (by omega) (by omega)
              linarith
        · by_cases hend : i + 2 = decs.length
          · left
            exact hend
          · right
            simp only [decide_eq_false_iff_not, not_le]
            have := hmono (i + 1) (i + 2) (by omega) (by omega)
            linarith
      rw [hTW]
      have hj : i + 2 - 1 = i + 1 := by omega
      rw [hj]
      have hfrac1 : frac = 1 := by
        rw [hfrac, hteq]
        exact div_self (by linarith)
      rw [hfrac1]
      by_cases hcond : i + 1 + 1 < decs.length
      · rw [if_pos hcond]
        have hzero : t - decs.getD (i + 1) 0 = 0 := by linarith
        rw [hzero, zero_div, hseg, hcastlen]
        push_cast
        ring
      · rw [if_neg hcond, hseg, hcastlen]
        push_cast
        ring
  · have hfracnn : 0 ≤ frac := by
      rw [hfrac]
      apply div_nonneg (by linarith) (by linarith)
    have h01 := mul_nonneg (show (0 : Rat) ≤ (i : Rat) by positivity) hsegpos.le
    have h02 := mul_nonneg hfracnn hsegpos.le
    linarith
  · have hfle1 : frac ≤ 1 := by
      rw [hfrac]
      rw [div_le_one (by linarith)]
      linarith
    have hcast : (i : Rat) + 1 ≤ ((u.length - 1 : Nat) : Rat) := by
      have h3 : i + 1 ≤ u.length - 1 := by omega
      exact_mod_cast h3
    have hxne : ((u.length - 1 : Nat) : Rat) ≠ 0 := by
      have h4 : 0 < u.length - 1 := by omega
      exact_mod_cast Nat.pos_iff_ne_zero.mp h4
    have hsegval : ((u.length - 1 : Nat) : Rat) * seg = 100 := by
      rw [hseg, ← mul_div_assoc, mul_comm ((u.length - 1 : Nat) : Rat) 100,
        mul_div_cancel_right₀ _ hxne]
    have hfracnn : 0 ≤ frac := by
      rw [hfrac]
      apply div_nonneg (by linarith) (by linarith)
    nlinarith [mul_le_mul_of_nonneg_right (add_le_add (le_refl (i : Rat)) hfle1) hsegpos.le,
      mul_le_mul_of_nonneg_right hcast hsegpos.le]

/-- Witness for claim C5 at a concrete input: target 08:30 against data
times 08:00, 09:00 and 10:00 satisfies every hypothesis, so the model
returns the claimed interpolation value, which lies between 0 and 100. -/
theorem claim_C5_time_position_witness :
    (∃ r, calculateTimePosition "08:30" ["08:00", "09:00", "10:00"] = some r ∧
      r = claimPosition ((sortedUnique ["08:00", "09:00", "10:00"]).map decHM)
            (decHM "08:30") ∧
      0 ≤ r ∧ r ≤ 100) ∧
    calculateTimePosition "08:30" [] = some 50 :=
  ⟨claim_C5_time_position.1 "08:30" ["08:00", "09:00", "10:00"]
    (by decide) (by decide) (by decide)
    ⟨"08:00", by decide, by decide⟩ ⟨"09:00", by decide, by decide⟩,
   claim_C5_time_position.2 "08:30" (8, 30) (by decide)⟩
